import Mathlib

/-!
# card-vault: key-versioned encryption of stored payment cards

A shallow embedding of `internal/crypto/encryption.go`, `internal/crypto/keymanager.go`
and `internal/service/card_service.go`.

Conventions of the embedding.

* A Go `string` or `[]byte` is a list of bytes (`Bytes`); the conversions `[]byte(s)` and
  `string(b)` are the identity.
* The process-wide random source `crypto/rand.Reader` is an explicit stream that is
  threaded through every function that reads from it.
* AES-GCM (`crypto/aes`, `crypto/cipher`) and `encoding/base64` are library code outside
  the repository; they are a parameter (`CryptoLib`) of every function that calls them.
* A Go `error` is a value of the inductive type `Error`; a function returning
  `(T, error)` returns `Except Error T`.
* `sync.RWMutex` fields are omitted: every function is modelled as one atomic step.
* Go `int` values (key versions, checksums) are unbounded integers: a version counter
  starts at 1 and grows by one per rotation, and a checksum grows by at most 9 per
  byte of input, so neither can reach the 64-bit limit.
-/

namespace CardVault

/-! ## Bytes, errors, the random source -/

/-- A Go `byte`. -/
abbrev Byte := Fin 256

/-- A Go `string` or `[]byte`. -/
abbrev Bytes := List Byte

/-- The bytes of a string literal (its UTF-8 encoding). -/
def str (s : String) : Bytes :=
  s.data.flatMap (fun c => (String.utf8EncodeChar c).map (fun b => b.val))

/-- Go `error` values that the modelled code creates, receives or wraps. -/
inductive Error where
  /-- an error returned by `crypto/rand` -/
  | randRead
  /-- the `aes.KeySizeError` of `aes.NewCipher` -/
  | aesKeySize
  /-- the `base64.CorruptInputError` of `DecodeString` -/
  | base64Corrupt
  /-- the error returned by `cipher.AEAD.Open` -/
  | openFailed
  /-- an error created by `errors.New(msg)` -/
  | new (msg : String)
  /-- an error returned by the repository, identified by a code -/
  | repo (code : Nat)
  /-- the error created by `fmt.Errorf(prefix + ": %w", err)` -/
  | wrap (pfx : String) (err : Error)
  /-- a nil-pointer dereference: the goroutine panics instead of returning -/
  | nilDeref
  deriving DecidableEq, Repr

deriving instance DecidableEq for Except

/-- The random source: the `i`-th byte it will deliver, or `none` when reading that
byte fails. -/
abbrev Rand := Nat → Option Byte

/-- The random source after one byte (or one failed attempt) has been consumed. -/
def Rand.tail (r : Rand) : Rand := fun i => r (i + 1)

/-- Reading `n` bytes from the random source (`rand.Read(buf)` and
`io.ReadFull(rand.Reader, buf)` with `len(buf) = n`): the bytes obtained, whether an
error occurred, and the remaining source. -/
def randRead : Nat → Rand → Bytes × Bool × Rand
  | 0, r => ([], false, r)
  | n + 1, r =>
    match r 0 with
    | none => ([], true, r.tail)
    | some b =>
      match randRead n r.tail with
      | (bs, e, r') => (b :: bs, e, r')

/-! ## The cryptographic libraries -/

/-- The library functions the repository calls: AES-GCM sealing and opening for a given
key, and standard base64. `Seal key nonce plaintext` is what `gcm.Seal` appends to its
destination (ciphertext followed by the tag); `Open key nonce box` is `none` when
`gcm.Open` returns an error. -/
structure CryptoLib where
  Seal : Bytes → Bytes → Bytes → Bytes
  Open : Bytes → Bytes → Bytes → Option Bytes
  EncodeToString : Bytes → Bytes
  DecodeString : Bytes → Option Bytes

/-- What is assumed of the libraries: opening inverts sealing under the same key and
nonce, and base64 decoding inverts encoding. -/
structure CryptoLib.Sound (L : CryptoLib) : Prop where
  open_seal : ∀ key nonce p, L.Open key nonce (L.Seal key nonce p) = some p
  decode_encode : ∀ b, L.DecodeString (L.EncodeToString b) = some b

/-- The nonce size of the standard GCM mode built by `cipher.NewGCM`. -/
def gcmNonceSize : Nat := 12

/-! ## `internal/crypto/encryption.go` -/

/-- An `*EncryptionService`: an AES-GCM instance bound to one key. -/
structure EncryptionService where
  key : Bytes
  deriving DecidableEq, Repr

/-- Function `NewEncryptionService(key)`: `aes.NewCipher` accepts keys of 16, 24 or 32 bytes. -/
def NewEncryptionService (key : Bytes) : Except Error EncryptionService :=
  if key.length = 16 ∨ key.length = 24 ∨ key.length = 32 then
    .ok { key := key }
  else
    .error .aesKeySize

/-- Method `(*EncryptionService).Encrypt`. -/
def EncryptionService.Encrypt (L : CryptoLib) (e : EncryptionService) (plaintext : Bytes)
    (r : Rand) : Except Error Bytes × Rand :=
  match randRead gcmNonceSize r with
  | (_, true, r') => (.error .randRead, r')
  | (nonce, false, r') =>
    let ciphertext := nonce ++ L.Seal e.key nonce plaintext
    (.ok (L.EncodeToString ciphertext), r')

/-- Method `(*EncryptionService).Decrypt`. Each error path of the source returns the
empty string together with the error; that pair is the error result here. -/
def EncryptionService.Decrypt (L : CryptoLib) (e : EncryptionService) (ciphertext : Bytes) :
    Except Error Bytes :=
  match L.DecodeString ciphertext with
  | none => .error .base64Corrupt
  | some data =>
    let nonceSize := gcmNonceSize
    if data.length < nonceSize then
      .error (.new "ciphertext too short")
    else
      let nonce := data.take nonceSize
      let ciphertextBytes := data.drop nonceSize
      match L.Open e.key nonce ciphertextBytes with
      | none => .error .openFailed
      | some plaintext => .ok plaintext

/-! ## `internal/crypto/keymanager.go` -/

/-- A `KeyManager`. `previousKey` is `none` while the Go field is nil. Times are
abstract clock readings. -/
structure KeyManager where
  currentKey : Bytes
  previousKey : Option Bytes
  keyVersion : Int
  rotationTime : Nat
  deriving DecidableEq, Repr

/-- Function `NewKeyManager()`: the error of `rand.Read` is ignored, so on a failing source the
key keeps the zero bytes of `make([]byte, 32)` in the positions not filled. -/
def NewKeyManager (r : Rand) (now : Nat) : KeyManager × Rand :=
  match randRead 32 r with
  | (bs, _, r') =>
    ({ currentKey := bs ++ List.replicate (32 - bs.length) 0
       previousKey := none
       keyVersion := 1
       rotationTime := now }, r')

/-- Method `(*KeyManager).GetCurrentKey`. -/
def KeyManager.GetCurrentKey (km : KeyManager) : Bytes × Int :=
  (km.currentKey, km.keyVersion)

/-- Method `(*KeyManager).RotateKey`: the error returned (`none` for nil), the key manager as
the call leaves it, and the remaining random source. -/
def KeyManager.RotateKey (km : KeyManager) (r : Rand) (now : Nat) :
    Option Error × KeyManager × Rand :=
  match randRead 32 r with
  | (_, true, r') => (some .randRead, km, r')
  | (newKey, false, r') =>
    (none,
      { currentKey := newKey
        previousKey := some km.currentKey
        keyVersion := km.keyVersion + 1
        rotationTime := now }, r')

/-- Method `(*KeyManager).GetPreviousKey`. -/
def KeyManager.GetPreviousKey (km : KeyManager) : Option Bytes :=
  km.previousKey

/-! ## `internal/models/card.go` -/

/-- A `uuid.UUID`. -/
abbrev UUID := Nat

/-- A `models.Card`. Strings that the program encrypts, decrypts or scans are `Bytes`;
`CardType` is only assigned and copied. -/
structure Card where
  ID : UUID
  UserID : UUID
  CardholderName : Bytes
  CardNumber : Bytes
  ExpiryMonth : Int
  ExpiryYear : Int
  CVV : Bytes
  CardType : String
  IsActive : Bool
  KeyVersion : Int
  CreatedAt : Nat
  UpdatedAt : Nat
  deriving DecidableEq, Repr

/-- A `models.CardResponse`. -/
structure CardResponse where
  ID : UUID
  UserID : UUID
  CardholderName : Bytes
  MaskedNumber : Bytes
  ExpiryMonth : Int
  ExpiryYear : Int
  CardType : String
  IsActive : Bool
  CreatedAt : Nat
  UpdatedAt : Nat
  deriving DecidableEq, Repr

/-- A `models.CardRequest`. -/
structure CardRequest where
  CardholderName : Bytes
  CardNumber : Bytes
  ExpiryMonth : Int
  ExpiryYear : Int
  CVV : Bytes
  deriving DecidableEq, Repr

/-- A `models.BatchUpdateResponse`; `Error` is the empty string when the field is
not set. -/
structure BatchUpdateResponse where
  CardID : UUID
  Status : String
  Error : String
  deriving DecidableEq, Repr

/-! ## `internal/repository/card_repository.go` -/

/-- The columns that the database fills in behind the pointer handed to `Create`. -/
structure DbFields where
  ID : UUID
  IsActive : Bool
  CreatedAt : Nat
  UpdatedAt : Nat
  deriving DecidableEq, Repr

/-- The `CardRepository` interface over a store of type `σ`, restricted to the methods
the modelled functions call. `Create` reports the database-managed columns it wrote
back into the record, `Update` the refreshed `UpdatedAt`; the other fields of a record
handed to the repository are left as they are. -/
structure CardRepository (σ : Type) where
  Create : σ → Card → Except Error DbFields × σ
  GetByID : σ → UUID → UUID → Except Error Card × σ
  Update : σ → Card → Except Error Nat × σ
  GetAllCards : σ → Except Error (List Card) × σ

/-! ## `internal/service/card_service.go` -/

/-- The fields of a `cardService` other than the repository and the mutex. -/
structure cardService where
  encSvc : EncryptionService
  keyMgr : KeyManager
  deriving DecidableEq, Repr

/-- Function `NewCardService(repo, encSvc, keyMgr)`; the repository is passed to each method
separately. -/
def NewCardService (encSvc : EncryptionService) (keyMgr : KeyManager) : cardService :=
  { encSvc := encSvc, keyMgr := keyMgr }

/-- Everything a method of the service reads or changes: the service itself, the random
source and the store behind the repository. `stored` is a ghost log of the records
handed to `repo.Create` and `repo.Update`, in call order, each as it was when the call
was made. -/
structure World (σ : Type) where
  svc : cardService
  rand : Rand
  repo : σ
  stored : List Card

/-- The call `strings.ReplaceAll(s, " ", "")`. -/
def stripSpaces (s : Bytes) : Bytes :=
  s.filter (fun c => c ≠ 32)

/-- The loop of `isValidCardNumber`; the first argument holds the bytes at indices
`i, i-1, ..., 0`. The subtraction `cardNumber[i] - '0'` is a subtraction of bytes and
wraps modulo 256 before the conversion to `int`. -/
def luhnLoop : Bytes → Int → Bool → Bool
  | [], sum, _ => sum % 10 == 0
  | c :: rest, sum, alternate =>
    let digit : Int := ((c - 48 : Byte).val : Nat)
    if digit < 0 ∨ digit > 9 then
      false
    else
      let digit :=
        if alternate then
          let digit := digit * 2
          if digit > 9 then digit % 10 + digit / 10 else digit
        else digit
      luhnLoop rest (sum + digit) (!alternate)

/-- Method `(*cardService).isValidCardNumber`. -/
def isValidCardNumber (cardNumber : Bytes) : Bool :=
  luhnLoop cardNumber.reverse 0 false

/-- The fragment of regular-expression syntax used by `detectCardType`. -/
inductive Regex where
  /-- a literal byte -/
  | lit (c : Byte)
  /-- a character class `[lo-hi]` -/
  | range (lo hi : Byte)
  /-- a character class of two literals, as in `[47]` -/
  | oneOf (cs : List Byte)
  /-- concatenation -/
  | seq (a b : Regex)
  /-- alternation `a|b` -/
  | alt (a b : Regex)
  /-- an optional group `(?:a)?` -/
  | opt (a : Regex)
  /-- a repetition `a{n}` -/
  | rep (a : Regex) (n : Nat)
  deriving Repr

/-- The suffixes of `s` left over by the ways the expression can match a prefix of
`s`. -/
def Regex.rests : Regex → Bytes → List Bytes
  | .lit c, s =>
    match s with
    | [] => []
    | x :: t => if x = c then [t] else []
  | .range lo hi, s =>
    match s with
    | [] => []
    | x :: t => if lo ≤ x ∧ x ≤ hi then [t] else []
  | .oneOf cs, s =>
    match s with
    | [] => []
    | x :: t => if x ∈ cs then [t] else []
  | .seq a b, s => (a.rests s).flatMap (fun t => b.rests t)
  | .alt a b, s => a.rests s ++ b.rests s
  | .opt a, s => a.rests s ++ [s]
  | .rep a n, s => Nat.iterate (fun ts => ts.flatMap (fun t => a.rests t)) n [s]

/-- Method `MatchString` for a pattern `^a1$|^a2$|...` whose alternatives are each anchored at
both ends: some alternative matches the whole input. -/
def MatchString (alternatives : List Regex) (s : Bytes) : Bool :=
  alternatives.any (fun a => (a.rests s).any (fun t => t.isEmpty))

/-- The class `[0-9]`. -/
def Regex.digit : Regex := .range 48 57

/-- The `patterns` map of `detectCardType`, in the order the source lists its entries.
Byte values: `'0'` is 48, ..., `'9'` is 57. -/
def patterns : List (String × List Regex) :=
  [ ("Visa",
      -- ^4[0-9]{12}(?:[0-9]{3})?$
      [.seq (.lit 52) (.seq (.rep .digit 12) (.opt (.rep .digit 3)))]),
    ("Mastercard",
      -- ^5[1-5][0-9]{14}$
      [ .seq (.lit 53) (.seq (.range 49 53) (.rep .digit 14)),
      -- ^2(?:2(?:2[1-9]|[3-9][0-9])|[3-6][0-9][0-9]|7(?:[01][0-9]|20))[0-9]{12}$
        .seq (.lit 50)
          (.seq
            (.alt
              (.seq (.lit 50) (.alt (.seq (.lit 50) (.range 49 57)) (.seq (.range 51 57) .digit)))
              (.alt
                (.seq (.range 51 54) (.seq .digit .digit))
                (.seq (.lit 55) (.alt (.seq (.oneOf [48, 49]) .digit) (.seq (.lit 50) (.lit 48))))))
            (.rep .digit 12)) ]),
    ("Amex",
      -- ^3[47][0-9]{13}$
      [.seq (.lit 51) (.seq (.oneOf [52, 55]) (.rep .digit 13))]),
    ("Discover",
      -- ^6(?:011|5[0-9]{2})[0-9]{12}$
      [.seq (.lit 54)
        (.seq
          (.alt (.seq (.lit 48) (.seq (.lit 49) (.lit 49))) (.seq (.lit 53) (.rep .digit 2)))
          (.rep .digit 12))]) ]

/-- Method `(*cardService).detectCardType`. Go visits the entries of a map in an unspecified
order; `order` is the order in which this call visits the entries of `patterns`. -/
def detectCardType (order : List (String × List Regex)) (cardNumber : Bytes) : String :=
  match order with
  | [] => "Unknown"
  | (cardType, pattern) :: rest =>
    if MatchString pattern cardNumber then cardType else detectCardType rest cardNumber

/-- Method `(*cardService).maskCardNumber`; `'*'` is byte 42. -/
def maskCardNumber (cardNumber : Bytes) : Bytes :=
  if cardNumber.length < 4 then
    cardNumber
  else
    let masked := List.replicate (cardNumber.length - 4) (42 : Byte)
    masked ++ cardNumber.drop (cardNumber.length - 4)

/-- Method `(*cardService).toCardResponse`. -/
def toCardResponse (card : Card) (decryptedNumber : Bytes) : CardResponse :=
  { ID := card.ID
    UserID := card.UserID
    CardholderName := card.CardholderName
    MaskedNumber := maskCardNumber decryptedNumber
    ExpiryMonth := card.ExpiryMonth
    ExpiryYear := card.ExpiryYear
    CardType := card.CardType
    IsActive := card.IsActive
    CreatedAt := card.CreatedAt
    UpdatedAt := card.UpdatedAt }

/-- Method `(*cardService).decryptCardNumber`. -/
def decryptCardNumber (L : CryptoLib) (s : cardService) (card : Card) : Except Error Bytes :=
  let currentVersion := s.keyMgr.GetCurrentKey.2
  if card.KeyVersion = currentVersion then
    s.encSvc.Decrypt L card.CardNumber
  else
    match s.keyMgr.GetPreviousKey with
    | some previousKey =>
      match NewEncryptionService previousKey with
      | .error err => .error err
      | .ok oldEncSvc => oldEncSvc.Decrypt L card.CardNumber
    | none => .error (.new "unable to decrypt card with available keys")

/-- Method `(*cardService).CreateCard`. -/
def CreateCard {σ : Type} (L : CryptoLib) (R : CardRepository σ)
    (order : List (String × List Regex)) (w : World σ) (userID : UUID) (req : CardRequest) :
    Except Error CardResponse × World σ :=
  let cardNumber := stripSpaces req.CardNumber
  if !isValidCardNumber cardNumber then
    (.error (.new "invalid card number"), w)
  else
    match w.svc.encSvc.Encrypt L cardNumber w.rand with
    | (.error err, r1) =>
      (.error (.wrap "failed to encrypt card number" err), { w with rand := r1 })
    | (.ok encryptedNumber, r1) =>
      match w.svc.encSvc.Encrypt L req.CVV r1 with
      | (.error err, r2) =>
        (.error (.wrap "failed to encrypt CVV" err), { w with rand := r2 })
      | (.ok encryptedCVV, r2) =>
        let keyVersion := w.svc.keyMgr.GetCurrentKey.2
        let card : Card :=
          { ID := 0
            UserID := userID
            CardholderName := req.CardholderName
            CardNumber := encryptedNumber
            ExpiryMonth := req.ExpiryMonth
            ExpiryYear := req.ExpiryYear
            CVV := encryptedCVV
            CardType := detectCardType order cardNumber
            IsActive := false
            KeyVersion := keyVersion
            CreatedAt := 0
            UpdatedAt := 0 }
        match R.Create w.repo card with
        | (.error err, repo1) =>
          (.error (.wrap "failed to create card" err),
            { w with rand := r2, repo := repo1, stored := w.stored ++ [card] })
        | (.ok db, repo1) =>
          let written :=
            { card with
              ID := db.ID, IsActive := db.IsActive, CreatedAt := db.CreatedAt,
              UpdatedAt := db.UpdatedAt }
          (.ok (toCardResponse written cardNumber),
            { w with rand := r2, repo := repo1, stored := w.stored ++ [card] })

/-- Method `(*cardService).GetCard`. -/
def GetCard {σ : Type} (L : CryptoLib) (R : CardRepository σ) (w : World σ)
    (cardID userID : UUID) : Except Error CardResponse × World σ :=
  match R.GetByID w.repo cardID userID with
  | (.error err, repo1) => (.error (.wrap "card not found" err), { w with repo := repo1 })
  | (.ok card, repo1) =>
    match decryptCardNumber L w.svc card with
    | .error err => (.error (.wrap "failed to decrypt card data" err), { w with repo := repo1 })
    | .ok decryptedNumber => (.ok (toCardResponse card decryptedNumber), { w with repo := repo1 })

/-- Method `(*cardService).UpdateCard`. -/
def UpdateCard {σ : Type} (L : CryptoLib) (R : CardRepository σ)
    (order : List (String × List Regex)) (w : World σ) (cardID userID : UUID)
    (req : CardRequest) : Except Error CardResponse × World σ :=
  match R.GetByID w.repo cardID userID with
  | (.error err, repo1) => (.error (.wrap "card not found" err), { w with repo := repo1 })
  | (.ok card, repo1) =>
    let cardNumber := stripSpaces req.CardNumber
    if !isValidCardNumber cardNumber then
      (.error (.new "invalid card number"), { w with repo := repo1 })
    else
      match w.svc.encSvc.Encrypt L cardNumber w.rand with
      | (.error err, r1) =>
        (.error (.wrap "failed to encrypt card number" err), { w with rand := r1, repo := repo1 })
      | (.ok encryptedNumber, r1) =>
        match w.svc.encSvc.Encrypt L req.CVV r1 with
        | (.error err, r2) =>
          (.error (.wrap "failed to encrypt CVV" err), { w with rand := r2, repo := repo1 })
        | (.ok encryptedCVV, r2) =>
          let card :=
            { card with
              CardholderName := req.CardholderName
              CardNumber := encryptedNumber
              ExpiryMonth := req.ExpiryMonth
              ExpiryYear := req.ExpiryYear
              CVV := encryptedCVV
              CardType := detectCardType order cardNumber }
          match R.Update repo1 card with
          | (.error err, repo2) =>
            (.error (.wrap "failed to update card" err),
              { w with rand := r2, repo := repo2, stored := w.stored ++ [card] })
          | (.ok updatedAt, repo2) =>
            let written := { card with UpdatedAt := updatedAt }
            (.ok (toCardResponse written cardNumber),
              { w with rand := r2, repo := repo2, stored := w.stored ++ [card] })

/-- A call `oldEncSvc.Decrypt(ciphertext)` through a pointer that may be nil (`none`):
`Decrypt` decodes its argument before it first touches the receiver, so a nil receiver
panics only for an argument that is valid base64. -/
def DecryptVia (L : CryptoLib) (e : Option EncryptionService) (ciphertext : Bytes) :
    Except Error Bytes :=
  match e with
  | some e => e.Decrypt L ciphertext
  | none =>
    match L.DecodeString ciphertext with
    | none => .error .base64Corrupt
    | some _ => .error .nilDeref

/-- One iteration of the loop of `RotateKeys`, for the record `card`: the response
written to `responses[i]`, or `none` when the iteration panics. -/
def rotateCard {σ : Type} (L : CryptoLib) (R : CardRepository σ)
    (oldEncSvc : Option EncryptionService) (newEncSvc : EncryptionService) (newVersion : Int)
    (card : Card) (w : World σ) : Option BatchUpdateResponse × World σ :=
  match DecryptVia L oldEncSvc card.CardNumber with
  | .error .nilDeref => (none, w)
  | .error _ =>
    (some { CardID := card.ID, Status := "failed", Error := "failed to decrypt with old key" }, w)
  | .ok cardNumber =>
    match DecryptVia L oldEncSvc card.CVV with
    | .error .nilDeref => (none, w)
    | .error _ =>
      (some { CardID := card.ID, Status := "failed",
              Error := "failed to decrypt CVV with old key" }, w)
    | .ok cvv =>
      match newEncSvc.Encrypt L cardNumber w.rand with
      | (.error _, r1) =>
        (some { CardID := card.ID, Status := "failed",
                Error := "failed to encrypt with new key" }, { w with rand := r1 })
      | (.ok newEncryptedNumber, r1) =>
        match newEncSvc.Encrypt L cvv r1 with
        | (.error _, r2) =>
          (some { CardID := card.ID, Status := "failed",
                  Error := "failed to encrypt CVV with new key" }, { w with rand := r2 })
        | (.ok newEncryptedCVV, r2) =>
          let card :=
            { card with
              CardNumber := newEncryptedNumber
              CVV := newEncryptedCVV
              KeyVersion := newVersion }
          match R.Update w.repo card with
          | (.error _, repo1) =>
            (some { CardID := card.ID, Status := "failed", Error := "failed to update card" },
              { w with rand := r2, repo := repo1, stored := w.stored ++ [card] })
          | (.ok _, repo1) =>
            (some { CardID := card.ID, Status := "success", Error := "" },
              { w with rand := r2, repo := repo1, stored := w.stored ++ [card] })

/-- The loop `for i, card := range cards` of `RotateKeys`: the slice `responses` it
fills, or `none` when an iteration panics. -/
def rotateLoop {σ : Type} (L : CryptoLib) (R : CardRepository σ)
    (oldEncSvc : Option EncryptionService) (newEncSvc : EncryptionService) (newVersion : Int) :
    List Card → World σ → Option (List BatchUpdateResponse) × World σ
  | [], w => (some [], w)
  | card :: rest, w =>
    match rotateCard L R oldEncSvc newEncSvc newVersion card w with
    | (none, w1) => (none, w1)
    | (some response, w1) =>
      match rotateLoop L R oldEncSvc newEncSvc newVersion rest w1 with
      | (none, w2) => (none, w2)
      | (some responses, w2) => (some (response :: responses), w2)

/-- Method `(*cardService).RotateKeys`; `now` is the reading of the clock taken by
`KeyManager.RotateKey`. A panic is reported as the error `nilDeref`. -/
def RotateKeys {σ : Type} (L : CryptoLib) (R : CardRepository σ) (w : World σ) (now : Nat) :
    Except Error (List BatchUpdateResponse) × World σ :=
  match R.GetAllCards w.repo with
  | (.error err, repo1) => (.error (.wrap "failed to get cards" err), { w with repo := repo1 })
  | (.ok cards, repo1) =>
    match w.svc.keyMgr.RotateKey w.rand now with
    | (some err, keyMgr, r1) =>
      (.error (.wrap "failed to rotate key" err),
        { w with svc := { w.svc with keyMgr := keyMgr }, rand := r1, repo := repo1 })
    | (none, keyMgr, r1) =>
      let w1 : World σ := { w with svc := { w.svc with keyMgr := keyMgr }, rand := r1, repo := repo1 }
      let newKey := keyMgr.GetCurrentKey.1
      let newVersion := keyMgr.GetCurrentKey.2
      match NewEncryptionService newKey with
      | .error err => (.error (.wrap "failed to create new encryption service" err), w1)
      | .ok newEncSvc =>
        let oldKey := keyMgr.GetPreviousKey
        let oldEncSvc := (NewEncryptionService (oldKey.getD [])).toOption
        match rotateLoop L R oldEncSvc newEncSvc newVersion cards w1 with
        | (none, w2) => (.error .nilDeref, w2)
        | (some responses, w2) =>
          (.ok responses, { w2 with svc := { w2.svc with encSvc := newEncSvc } })

/-! ## A library instance for running the functions

The functions above are executable once a `CryptoLib` is supplied. `modelLib` is a small
instance that satisfies `CryptoLib.Sound` and rejects a box sealed under another key or
nonce, as AES-GCM does: the sealed box is the plaintext followed by the key and the
nonce, and the encoding is the identity. -/

/-- Sealing in `modelLib`. -/
def modelSeal (key nonce plaintext : Bytes) : Bytes :=
  plaintext ++ (key ++ nonce)

/-- Opening in `modelLib`. -/
def modelOpen (key nonce box : Bytes) : Option Bytes :=
  let tag := key ++ nonce
  if tag.length ≤ box.length ∧ box.drop (box.length - tag.length) = tag then
    some (box.take (box.length - tag.length))
  else
    none

/-- The library instance used to evaluate the functions on concrete inputs. -/
def modelLib : CryptoLib :=
  { Seal := modelSeal
    Open := modelOpen
    EncodeToString := fun b => b
    DecodeString := fun s => some s }

/-- A random source that never fails and delivers the bytes `seed, seed + 1, ...`. -/
def countingRand (seed : Nat) : Rand :=
  fun i => some (Fin.ofNat (seed + i))

/-- The random source never fails. -/
def Rand.NeverFails (r : Rand) : Prop :=
  ∀ i, (r i).isSome = true

/-- The value `c` was produced by `Encrypt` of the plaintext `p` on the service `e`. -/
def EncryptedUnder (L : CryptoLib) (e : EncryptionService) (p c : Bytes) : Prop :=
  ∃ r r', e.Encrypt L p r = (.ok c, r')

/-- A repository whose `Update` never fails. -/
def CardRepository.UpdateNeverFails {σ : Type} (R : CardRepository σ) : Prop :=
  ∀ (st : σ) (card : Card), ∃ t st', R.Update st card = (.ok t, st')

/-- An in-memory repository over the list of stored records, for running the service on
concrete inputs: `Create` assigns the identifier `1 + number of records`, `Update`
replaces the record with the same identifier. -/
def memRepo : CardRepository (List Card) :=
  { Create := fun st card =>
      (.ok { ID := st.length + 1, IsActive := true, CreatedAt := 0, UpdatedAt := 0 },
        st ++ [{ card with ID := st.length + 1, IsActive := true }])
    GetByID := fun st id userID =>
      match st.find? (fun c => c.ID = id ∧ c.UserID = userID) with
      | some c => (.ok c, st)
      | none => (.error (.repo 404), st)
    Update := fun st card =>
      (.ok 0, st.map (fun c => if c.ID = card.ID then card else c))
    GetAllCards := fun st => (.ok st, st) }

/-- What the sweep hands to `repo.Update` for a record `cp.1` with plaintexts `cp.2`:
the same identifier, the new version, and fields that the new service decrypts to
them. -/
def Reencrypted (L : CryptoLib) (new : EncryptionService) (ver : Int) (h : Card)
    (cp : Card × Bytes × Bytes) : Prop :=
  h.ID = cp.1.ID ∧ h.KeyVersion = ver ∧
  new.Decrypt L h.CardNumber = .ok cp.2.1 ∧ new.Decrypt L h.CVV = .ok cp.2.2

/-! ## The Luhn check as the specification words it -/

/-- The byte is an ASCII digit, `'0'` (48) to `'9'` (57). -/
def isAsciiDigit (c : Byte) : Prop :=
  48 ≤ c.val ∧ c.val ≤ 57

instance (c : Byte) : Decidable (isAsciiDigit c) :=
  inferInstanceAs (Decidable (48 ≤ c.val ∧ c.val ≤ 57))

/-- The value of an ASCII digit. -/
def digitValue (c : Byte) : Nat :=
  c.val - 48

/-- The contribution of the digit `d` at position `i`, counted from the right starting
at 0: every second digit is doubled, and a doubled value above 9 is replaced by the sum
of its two digits. -/
def luhnTerm (i d : Nat) : Nat :=
  if i % 2 = 1 then
    if 2 * d > 9 then (2 * d) / 10 + (2 * d) % 10 else 2 * d
  else
    d

/-- The standard Luhn total of a digit string, scanning from the rightmost digit. -/
def luhnTotal (s : Bytes) : Nat :=
  ((s.reverse.map digitValue).enum.map (fun id => luhnTerm id.1 id.2)).sum

/-- The Luhn total of the digits `l`, taken as standing at positions `k, k + 1, ...`. -/
def luhnTotalFrom (k : Nat) (l : Bytes) : Nat :=
  (((l.map digitValue).enumFrom k).map (fun id => luhnTerm id.1 id.2)).sum

/-! ## Tampering, and a second library instance -/

/-- The byte `b` with bit `j` flipped. -/
def flipBit (b : Byte) (j : Fin 8) : Byte :=
  if (b.val / 2 ^ j.val) % 2 = 1 then Fin.ofNat (b.val - 2 ^ j.val)
  else Fin.ofNat (b.val + 2 ^ j.val)

/-- The byte string `bs` with bit `j` of the byte at index `i` flipped. -/
def flipBitAt : Bytes → Nat → Fin 8 → Bytes
  | [], _, _ => []
  | b :: bs, 0, j => flipBit b j :: bs
  | b :: bs, i + 1, j => b :: flipBitAt bs i j

/-- The authentication property of the AEAD that tamper detection rests on: `Open`
rejects a sealed box in which one bit has been flipped. -/
def CryptoLib.TamperEvident (L : CryptoLib) : Prop :=
  ∀ (key nonce p : Bytes) (i : Nat) (j : Fin 8), i < (L.Seal key nonce p).length →
    L.Open key nonce (flipBitAt (L.Seal key nonce p) i j) = none

/-- Sealing in `strictLib`: the plaintext followed by key and nonce, written twice. -/
def strictSeal (key nonce plaintext : Bytes) : Bytes :=
  (plaintext ++ (key ++ nonce)) ++ (plaintext ++ (key ++ nonce))

/-- Opening in `strictLib`: the two halves of the box must agree and end in key and
nonce. -/
def strictOpen (key nonce box : Bytes) : Option Bytes :=
  let half := box.take (box.length / 2)
  if box = half ++ half then modelOpen key nonce half else none

/-- Decoding in `strictLib`: the marker byte `'B'` (66) must come first. -/
def strictDecode : Bytes → Option Bytes
  | [] => none
  | b :: rest => if b = 66 then some rest else none

/-- A second library instance for running the functions: its `Open` rejects a box with
a flipped bit as well as a box sealed under another key or nonce, and its decoding
rejects strings that do not start with the marker byte its encoding prepends, as base64
decoding rejects strings that are not base64. -/
def strictLib : CryptoLib :=
  { Seal := strictSeal
    Open := strictOpen
    EncodeToString := fun b => 66 :: b
    DecodeString := strictDecode }

/-! ## Brand patterns by their first byte -/

/-- The literal byte an expression starts with, when it is a concatenation that starts
with a literal. -/
def Regex.lead : Regex → Option Byte
  | .seq (.lit c) _ => some c
  | _ => none

/-- The brand whose patterns start with the byte `c`: `'4'` Visa, `'5'` and `'2'`
Mastercard, `'3'` Amex, `'6'` Discover. -/
def brandOfLead (c : Byte) : String :=
  if c = 52 then "Visa"
  else if c = 53 ∨ c = 50 then "Mastercard"
  else if c = 51 then "Amex"
  else if c = 54 then "Discover"
  else "Unknown"

/-- The first entry of `order` whose pattern matches, as a brand name; "Unknown" when
there is none. -/
def firstMatch (order : List (String × List Regex)) (s : Bytes) : String :=
  ((order.find? (fun p => MatchString p.2 s)).map Prod.fst).getD "Unknown"

/-! ## Concrete inputs -/

/-- The ciphertext that `Encrypt` returns, or the empty string when it fails. -/
def encryptedOr (L : CryptoLib) (e : EncryptionService) (p : Bytes) (r : Rand) : Bytes :=
  match (e.Encrypt L p r).1 with
  | .ok c => c
  | .error _ => []

/-- A key of 32 bytes, each equal to `b`. -/
def constKey (b : Byte) : Bytes := List.replicate 32 b

/-- A key manager as `NewKeyManager` leaves it: version 1, no previous key. -/
def freshKeyMgr : KeyManager :=
  { currentKey := constKey 1, previousKey := none, keyVersion := 1, rotationTime := 0 }

/-- A service wired as in `cmd/server/main.go`: the cipher is built from the key
manager's current key. -/
def freshService : cardService :=
  NewCardService { key := constKey 1 } freshKeyMgr

/-- A stored record for the card number `number` and the CVV `cvv`, encrypted under
`key` and tagged with `version`. -/
def storedCard (id : UUID) (key : Bytes) (version : Int) (number cvv : Bytes) (seed : Nat) :
    Card :=
  { ID := id
    UserID := 7
    CardholderName := str "John Doe"
    CardNumber := encryptedOr modelLib { key := key } number (countingRand seed)
    ExpiryMonth := 12
    ExpiryYear := 2025
    CVV := encryptedOr modelLib { key := key } cvv (countingRand (seed + 12))
    CardType := "Visa"
    IsActive := true
    KeyVersion := version
    CreatedAt := 0
    UpdatedAt := 0 }

/-- Two records encrypted under the first key, with their plaintexts. -/
def twoCards : List (Card × Bytes × Bytes) :=
  [ (storedCard 1 (constKey 1) 1 (str "4111111111111111") (str "123") 0,
      str "4111111111111111", str "123"),
    (storedCard 2 (constKey 1) 1 (str "5555555555554444") (str "456") 24,
      str "5555555555554444", str "456") ]

/-- The fresh service over a store holding `twoCards`. -/
def twoCardWorld : World (List Card) :=
  { svc := freshService, rand := countingRand 100, repo := twoCards.map Prod.fst, stored := [] }

/-- A record whose stored card number is not a ciphertext at all. -/
def corruptCard : Card :=
  { storedCard 3 (constKey 1) 1 (str "4111111111111111") (str "789") 48 with
    CardNumber := str "garbage" }

/-- The fresh service over a store holding the first of `twoCards`, the corrupted record
and the second of `twoCards`. -/
def corruptWorld : World (List Card) :=
  { svc := freshService
    rand := countingRand 100
    repo := (twoCards.map Prod.fst).take 1 ++ corruptCard :: (twoCards.map Prod.fst).drop 1
    stored := [] }

/-- The repository `memRepo`, except that `GetAllCards` delivers `cards`. -/
def memRepoListing (cards : List Card) : CardRepository (List Card) :=
  { memRepo with GetAllCards := fun st => (.ok cards, st) }

/-- The key manager as `RotateKey` leaves it. -/
def rotated (km : KeyManager) (r : Rand) (now : Nat) : KeyManager :=
  (km.RotateKey r now).2.1

/-- The fresh key manager after two rotations: version 3, the first key discarded. -/
def twiceRotatedKeyMgr : KeyManager :=
  rotated (rotated freshKeyMgr (countingRand 100) 1) (countingRand 132) 2

/-- A service whose cipher is bound to the current key of `twiceRotatedKeyMgr`. -/
def twiceRotatedService : cardService :=
  NewCardService { key := twiceRotatedKeyMgr.currentKey } twiceRotatedKeyMgr

/-- A record encrypted under the first key, tagged with version 1 and never swept. -/
def staleCard : Card :=
  storedCard 1 (constKey 1) 1 (str "4111111111111111") (str "123") 0

/-- The error of `decryptCardNumber` when no key is available. -/
def errKeyUnavailable : Error :=
  .new "unable to decrypt card with available keys"

/-- The world after the sweep over `corruptWorld`: the key manager is at version 2, the
cipher is bound to the second key, and the corrupted record is still tagged 1. -/
def afterSweepWorld : World (List Card) :=
  (RotateKeys modelLib memRepo corruptWorld 0).2

/-- A request that replaces the card number and the CVV of a record. -/
def updateRequest : CardRequest :=
  { CardholderName := str "John Doe"
    CardNumber := str "5555 5555 5555 4444"
    ExpiryMonth := 11
    ExpiryYear := 2027
    CVV := str "321" }

/-- The request of `TestCardService_CreateCard`. -/
def createRequest : CardRequest :=
  { CardholderName := str "John Doe"
    CardNumber := str "4111111111111111"
    ExpiryMonth := 12
    ExpiryYear := 2025
    CVV := str "123" }

/-- A service wired as in `TestCardService_CreateCard`: the cipher is built from a key
drawn independently of the key manager's. -/
def unboundService : cardService :=
  NewCardService { key := constKey 9 } freshKeyMgr

/-- The service `unboundService` over an empty store. -/
def unboundWorld : World (List Card) :=
  { svc := unboundService, rand := countingRand 0, repo := [], stored := [] }

/-- The service `freshService` over an empty store. -/
def freshWorld : World (List Card) :=
  { svc := freshService, rand := countingRand 0, repo := [], stored := [] }

/-- The record that `CreateCard` hands to `repo.Create` for `createRequest` when the
cipher is bound to `key`, the version is 1 and the random source is `countingRand 0`. -/
def createdCard (key : Bytes) : Card :=
  { ID := 0
    UserID := 7
    CardholderName := str "John Doe"
    CardNumber := encryptedOr modelLib { key := key } (str "4111111111111111") (countingRand 0)
    ExpiryMonth := 12
    ExpiryYear := 2025
    CVV := encryptedOr modelLib { key := key } (str "123") (countingRand 12)
    CardType := "Visa"
    IsActive := false
    KeyVersion := 1
    CreatedAt := 0
    UpdatedAt := 0 }

/-- The random source of `freshWorld` after the card number of `createRequest` has been
encrypted. -/
def freshRandAfterNumber : Rand :=
  (freshWorld.svc.encSvc.Encrypt modelLib (stripSpaces createRequest.CardNumber)
    freshWorld.rand).2

/-- A random source whose every read fails. -/
def failingRand : Rand :=
  fun _ => none

/-- The key manager states reachable from `NewKeyManager` by calls of `RotateKey`,
successful or failing, together with the number of successful rotations so far. -/
inductive KeyManager.Reachable : KeyManager → Nat → Prop where
  /-- the state `NewKeyManager` returns -/
  | new (r : Rand) (now : Nat) : KeyManager.Reachable (NewKeyManager r now).1 0
  /-- a call of `RotateKey` that returns nil -/
  | rotateOk (km km' : KeyManager) (n : Nat) (r r' : Rand) (now : Nat) :
      KeyManager.Reachable km n → km.RotateKey r now = (none, km', r') →
      KeyManager.Reachable km' (n + 1)
  /-- a call of `RotateKey` that returns an error -/
  | rotateFail (km km' : KeyManager) (n : Nat) (r r' : Rand) (now : Nat) (err : Error) :
      KeyManager.Reachable km n → km.RotateKey r now = (some err, km', r') →
      KeyManager.Reachable km' n

/-- A key manager reached from `NewKeyManager` by a failing and then a successful
rotation. -/
def onceRotatedKeyMgr : KeyManager :=
  rotated (rotated (NewKeyManager (countingRand 0) 0).1 failingRand 1) (countingRand 32) 2

/-- Two records already tagged with version 2 while the key manager is at version 1:
the first encrypted under the key manager's key, the second under another key. -/
def aheadCards : List Card :=
  [ storedCard 1 (constKey 1) 2 (str "4111111111111111") (str "123") 0,
    storedCard 2 (constKey 5) 2 (str "5555555555554444") (str "456") 24 ]

/-- The fresh service over a store holding `aheadCards`. -/
def aheadWorld : World (List Card) :=
  { svc := freshService, rand := countingRand 100, repo := aheadCards, stored := [] }

/-- The ciphertext of "4111111111111111" under the key of bytes `7` in `strictLib`. -/
def strictCiphertext : Bytes :=
  encryptedOr strictLib { key := constKey 7 } (str "4111111111111111") (countingRand 0)

/-- The sealed box inside `strictCiphertext`: what follows the marker byte and the
12-byte nonce. -/
def strictBox : Bytes :=
  strictCiphertext.drop 13

/-- The string `strictCiphertext` with the lowest bit of the first byte after the nonce
flipped. -/
def tamperedCiphertext : Bytes :=
  strictCiphertext.take 13 ++ flipBitAt strictBox 0 0

/-! ## Auxiliary lemmas -/

/-- A pair is determined by its first component and its own second component. -/
theorem pair_of_fst {α β : Type} (p : α × β) (a : α) (h : p.1 = a) : p = (a, p.2) := by
  cases p
  cases h
  rfl

theorem modelLib_sound : modelLib.Sound := by
  constructor
  · intro key nonce p
    simp [modelLib, modelOpen, modelSeal]
  · intro b
    rfl

theorem randRead_length :
    ∀ (n : Nat) (r r' : Rand) (bs : Bytes), randRead n r = (bs, false, r') → bs.length = n := by
  intro n
  induction n with
  | zero =>
    intro r r' bs h
    simp [randRead] at h
    simp [h.1.symm]
  | succ n ih =>
    intro r r' bs h
    unfold randRead at h
    cases hr : r 0 with
    | none => simp [hr] at h
    | some b =>
      rw [hr] at h
      rcases hq : randRead n r.tail with ⟨bs1, e1, r1⟩
      rw [hq] at h
      simp only [Prod.mk.injEq] at h
      obtain ⟨h1, h2, _⟩ := h
      subst h1 h2
      simp [ih _ _ _ hq]

theorem NewEncryptionService_ok {key : Bytes} (h : key.length = 32) :
    NewEncryptionService key = .ok { key := key } := by
  simp [NewEncryptionService, h]

/-- Under a sound library, what `Encrypt` returns is decrypted by `Decrypt` under the
same key to the plaintext. -/
theorem decrypt_of_encrypt {L : CryptoLib} (hL : L.Sound) (e : EncryptionService)
    {p c : Bytes} {r r' : Rand} (h : e.Encrypt L p r = (.ok c, r')) :
    e.Decrypt L c = .ok p := by
  unfold EncryptionService.Encrypt at h
  rcases hq : randRead gcmNonceSize r with ⟨nonce, err, r1⟩
  rw [hq] at h
  cases err with
  | true => simp at h
  | false =>
    simp only [Prod.mk.injEq, Except.ok.injEq] at h
    have hlen : nonce.length = gcmNonceSize := randRead_length _ _ _ _ hq
    rw [← h.1]
    unfold EncryptionService.Decrypt
    rw [hL.decode_encode]
    simp only [List.length_append, hlen]
    rw [if_neg (by omega)]
    have ht : (nonce ++ L.Seal e.key nonce p).take gcmNonceSize = nonce := by
      rw [← hlen]; exact List.take_left' rfl
    have hd : (nonce ++ L.Seal e.key nonce p).drop gcmNonceSize = L.Seal e.key nonce p := by
      rw [← hlen]; exact List.drop_left' rfl
    rw [ht, hd, hL.open_seal]

theorem randRead_neverFails :
    ∀ (n : Nat) (r : Rand), r.NeverFails →
      ∃ bs r', randRead n r = (bs, false, r') ∧ r'.NeverFails := by
  intro n
  induction n with
  | zero =>
    intro r hr
    exact ⟨[], r, rfl, hr⟩
  | succ n ih =>
    intro r hr
    have h0 := hr 0
    cases hb : r 0 with
    | none => simp [hb] at h0
    | some b =>
      have ht : r.tail.NeverFails := fun i => hr (i + 1)
      obtain ⟨bs, r', hq, hr'⟩ := ih r.tail ht
      refine ⟨b :: bs, r', ?_, hr'⟩
      simp [randRead, hb, hq]

theorem encrypt_neverFails (L : CryptoLib) (e : EncryptionService) (p : Bytes) (r : Rand)
    (hr : r.NeverFails) : ∃ c r', e.Encrypt L p r = (.ok c, r') ∧ r'.NeverFails := by
  obtain ⟨nonce, r', hq, hr'⟩ := randRead_neverFails gcmNonceSize r hr
  exact ⟨L.EncodeToString (nonce ++ L.Seal e.key nonce p), r',
    by simp [EncryptionService.Encrypt, hq], hr'⟩

theorem rotateKey_neverFails (km : KeyManager) (r : Rand) (now : Nat) (hr : r.NeverFails) :
    ∃ newKey r', km.RotateKey r now =
        (none, { currentKey := newKey, previousKey := some km.currentKey,
                 keyVersion := km.keyVersion + 1, rotationTime := now }, r') ∧
      newKey.length = 32 ∧ r'.NeverFails := by
  obtain ⟨newKey, r', hq, hr'⟩ := randRead_neverFails 32 r hr
  exact ⟨newKey, r', by simp [KeyManager.RotateKey, hq], randRead_length _ _ _ _ hq, hr'⟩

theorem decrypt_of_encryptedUnder {L : CryptoLib} (hL : L.Sound) {e : EncryptionService}
    {p c : Bytes} (h : EncryptedUnder L e p c) : e.Decrypt L c = .ok p := by
  obtain ⟨r, r', h⟩ := h
  exact decrypt_of_encrypt hL e h

/-- One iteration of the sweep on a record that the old service decrypts, with a random
source and a repository that do not fail. -/
theorem rotateCard_success {σ : Type} {L : CryptoLib} (hL : L.Sound) (R : CardRepository σ)
    (hR : R.UpdateNeverFails) (old new : EncryptionService) (ver : Int) (card : Card)
    (pn pc : Bytes) (hn : old.Decrypt L card.CardNumber = .ok pn)
    (hc : old.Decrypt L card.CVV = .ok pc) (w : World σ) (hr : w.rand.NeverFails) :
    ∃ (w' : World σ) (h : Card),
      rotateCard L R (some old) new ver card w =
        (some { CardID := card.ID, Status := "success", Error := "" }, w') ∧
      w'.stored = w.stored ++ [h] ∧ h.ID = card.ID ∧ h.KeyVersion = ver ∧
      new.Decrypt L h.CardNumber = .ok pn ∧ new.Decrypt L h.CVV = .ok pc ∧
      w'.rand.NeverFails ∧ w'.svc = w.svc := by
  obtain ⟨c1, r1, he1, hr1⟩ := encrypt_neverFails L new pn w.rand hr
  obtain ⟨c2, r2, he2, hr2⟩ := encrypt_neverFails L new pc r1 hr1
  obtain ⟨t, st', hu⟩ :=
    hR w.repo { card with CardNumber := c1, CVV := c2, KeyVersion := ver }
  let h : Card := { card with CardNumber := c1, CVV := c2, KeyVersion := ver }
  refine ⟨{ w with rand := r2, repo := st', stored := w.stored ++ [h] }, h, ?_, rfl, rfl, rfl,
    decrypt_of_encrypt hL new he1, decrypt_of_encrypt hL new he2, hr2, rfl⟩
  simp [rotateCard, DecryptVia, hn, hc, he1, he2, hu]

theorem rotateLoop_success {σ : Type} {L : CryptoLib} (hL : L.Sound) (R : CardRepository σ)
    (hR : R.UpdateNeverFails) (old new : EncryptionService) (ver : Int) :
    ∀ (cps : List (Card × Bytes × Bytes)),
      (∀ cp ∈ cps, old.Decrypt L cp.1.CardNumber = .ok cp.2.1 ∧
        old.Decrypt L cp.1.CVV = .ok cp.2.2) →
      ∀ (w : World σ), w.rand.NeverFails →
      ∃ (w' : World σ) (handed : List Card),
        rotateLoop L R (some old) new ver (cps.map Prod.fst) w =
          (some ((cps.map Prod.fst).map
            (fun c => { CardID := c.ID, Status := "success", Error := "" })), w') ∧
        w'.stored = w.stored ++ handed ∧
        List.Forall₂ (Reencrypted L new ver) handed cps ∧
        w'.rand.NeverFails ∧ w'.svc = w.svc := by
  intro cps
  induction cps with
  | nil =>
    intro _ w hr
    exact ⟨w, [], rfl, by simp, List.Forall₂.nil, hr, rfl⟩
  | cons cp rest ih =>
    intro hdec w hr
    obtain ⟨hn, hc⟩ := hdec cp (List.mem_cons_self _ _)
    obtain ⟨w1, h, hstep, hst1, hid, hver, hdn, hdc, hr1, hsvc1⟩ :=
      rotateCard_success hL R hR old new ver cp.1 cp.2.1 cp.2.2 hn hc w hr
    obtain ⟨w2, handed, hloop, hst2, hall, hr2, hsvc2⟩ :=
      ih (fun c hc' => hdec c (List.mem_cons_of_mem _ hc')) w1 hr1
    refine ⟨w2, h :: handed, ?_, ?_, List.Forall₂.cons ⟨hid, hver, hdn, hdc⟩ hall, hr2,
      hsvc2.trans hsvc1⟩
    · simp only [List.map_cons, rotateLoop, hstep, hloop]
    · rw [hst2, hst1]; simp

theorem decrypt_ne_nilDeref (L : CryptoLib) (e : EncryptionService) (c : Bytes) :
    e.Decrypt L c ≠ .error .nilDeref := by
  unfold EncryptionService.Decrypt
  split
  · simp
  · dsimp only
    split
    · simp
    · split <;> simp

/-- Every response the sweep writes carries the identifier of its record. -/
theorem rotateCard_id {σ : Type} (L : CryptoLib) (R : CardRepository σ)
    (old : Option EncryptionService) (new : EncryptionService) (ver : Int) (card : Card)
    (w w' : World σ) (resp : BatchUpdateResponse)
    (h : rotateCard L R old new ver card w = (some resp, w')) : resp.CardID = card.ID := by
  unfold rotateCard at h
  repeat' (first | split at h | (dsimp only at h; split at h))
  all_goals
    simp only [Prod.mk.injEq, Option.some.injEq, reduceCtorEq, false_and] at h
  all_goals
    rw [← h.1]

theorem rotateLoop_ids {σ : Type} (L : CryptoLib) (R : CardRepository σ)
    (old : Option EncryptionService) (new : EncryptionService) (ver : Int) :
    ∀ (cards : List Card) (w w' : World σ) (resps : List BatchUpdateResponse),
      rotateLoop L R old new ver cards w = (some resps, w') →
      resps.map (fun x => x.CardID) = cards.map (fun c => c.ID) := by
  intro cards
  induction cards with
  | nil =>
    intro w w' resps h
    simp only [rotateLoop, Prod.mk.injEq, Option.some.injEq] at h
    simp [← h.1]
  | cons card rest ih =>
    intro w w' resps h
    unfold rotateLoop at h
    rcases h1 : rotateCard L R old new ver card w with ⟨o1, w1⟩
    rw [h1] at h
    cases o1 with
    | none => simp at h
    | some resp =>
      rcases h2 : rotateLoop L R old new ver rest w1 with ⟨o2, w2⟩
      simp only [h2] at h
      cases o2 with
      | none => simp at h
      | some rs =>
        simp only [Prod.mk.injEq, Option.some.injEq] at h
        rw [← h.1]
        simp [rotateCard_id L R old new ver card w w1 resp h1, ih w1 w2 rs h2]

/-- A record that the old service cannot decrypt is reported as failed, and the
iteration leaves the world as it was: nothing is read from the random source and
nothing is handed to the repository. -/
theorem rotateCard_corrupt {σ : Type} (L : CryptoLib) (R : CardRepository σ)
    (old new : EncryptionService) (ver : Int) (bad : Card) (w : World σ)
    (hbad : (∃ err, old.Decrypt L bad.CardNumber = .error err) ∨
      (∃ err, old.Decrypt L bad.CVV = .error err)) :
    ∃ msg, rotateCard L R (some old) new ver bad w =
      (some { CardID := bad.ID, Status := "failed", Error := msg }, w) := by
  unfold rotateCard
  simp only [DecryptVia]
  cases hn : old.Decrypt L bad.CardNumber with
  | error err =>
    have hne : err ≠ .nilDeref := fun h => decrypt_ne_nilDeref L old _ (h ▸ hn)
    refine ⟨"failed to decrypt with old key", ?_⟩
    cases err <;> simp_all
  | ok pn =>
    rcases hbad with ⟨err, h⟩ | ⟨err, hc⟩
    · exact absurd (hn.symm.trans h) (by simp)
    · have hne : err ≠ .nilDeref := fun h => decrypt_ne_nilDeref L old _ (h ▸ hc)
      refine ⟨"failed to decrypt CVV with old key", ?_⟩
      simp only [hc]

theorem rotateLoop_append {σ : Type} (L : CryptoLib) (R : CardRepository σ)
    (old : Option EncryptionService) (new : EncryptionService) (ver : Int) :
    ∀ (xs ys : List Card) (w : World σ),
      rotateLoop L R old new ver (xs ++ ys) w =
        match rotateLoop L R old new ver xs w with
        | (none, w1) => (none, w1)
        | (some r1, w1) =>
          match rotateLoop L R old new ver ys w1 with
          | (none, w2) => (none, w2)
          | (some r2, w2) => (some (r1 ++ r2), w2) := by
  intro xs
  induction xs with
  | nil =>
    intro ys w
    simp only [List.nil_append, rotateLoop]
    rcases rotateLoop L R old new ver ys w with ⟨o, w2⟩
    cases o <;> rfl
  | cons x xs ih =>
    intro ys w
    rw [List.cons_append, rotateLoop, rotateLoop]
    rcases rotateCard L R old new ver x w with ⟨o1, w1⟩
    cases o1 with
    | none => rfl
    | some resp =>
      simp only
      rw [ih ys w1]
      rcases rotateLoop L R old new ver xs w1 with ⟨o2, w2⟩
      cases o2 with
      | none => rfl
      | some r1 =>
        simp only
        rcases rotateLoop L R old new ver ys w2 with ⟨o3, w3⟩
        cases o3 <;> rfl

theorem rotateLoop_length {σ : Type} (L : CryptoLib) (R : CardRepository σ)
    (old : Option EncryptionService) (new : EncryptionService) (ver : Int)
    (cards : List Card) (w w' : World σ) (resps : List BatchUpdateResponse)
    (h : rotateLoop L R old new ver cards w = (some resps, w')) :
    resps.length = cards.length := by
  have := congrArg List.length (rotateLoop_ids L R old new ver cards w w' resps h)
  simpa using this

/-- The sweep uses the repository only through `Update`. -/
theorem rotateLoop_congr {σ : Type} (L : CryptoLib) (R R' : CardRepository σ)
    (hU : R'.Update = R.Update) (old : Option EncryptionService) (new : EncryptionService)
    (ver : Int) :
    ∀ (cards : List Card) (w : World σ),
      rotateLoop L R' old new ver cards w = rotateLoop L R old new ver cards w := by
  have hcard : ∀ (card : Card) (w : World σ),
      rotateCard L R' old new ver card w = rotateCard L R old new ver card w := by
    intro card w
    simp only [rotateCard, hU]
  intro cards
  induction cards with
  | nil => intro w; rfl
  | cons card rest ih =>
    intro w
    simp only [rotateLoop, hcard, ih]

/-- The shape of a successful rotation. -/
theorem rotateKey_ok_inv (km km' : KeyManager) (r r' : Rand) (now : Nat)
    (h : km.RotateKey r now = (none, km', r')) :
    ∃ newKey, km' = { currentKey := newKey, previousKey := some km.currentKey,
                      keyVersion := km.keyVersion + 1, rotationTime := now } ∧
      newKey.length = 32 := by
  unfold KeyManager.RotateKey at h
  rcases hq : randRead 32 r with ⟨newKey, err, r1⟩
  rw [hq] at h
  cases err with
  | true => simp at h
  | false =>
    simp only [Prod.mk.injEq, true_and] at h
    exact ⟨newKey, h.1.symm, randRead_length _ _ _ _ hq⟩

/-- A run of `RotateKeys` on the records `cards` in terms of its loop: the rotation
succeeded, and the result is what the loop returns, with the cipher replaced. -/
theorem rotateKeys_eq_loop {σ : Type} (L : CryptoLib) (R : CardRepository σ) (w : World σ)
    (now : Nat) (cards : List Card) (repo1 : σ)
    (hget : R.GetAllCards w.repo = (.ok cards, repo1))
    (newKey : Bytes) (r1 : Rand) (hlen : newKey.length = 32)
    (hrot : w.svc.keyMgr.RotateKey w.rand now =
      (none, { currentKey := newKey, previousKey := some w.svc.keyMgr.currentKey,
               keyVersion := w.svc.keyMgr.keyVersion + 1, rotationTime := now }, r1)) :
    RotateKeys L R w now =
      match rotateLoop L R (NewEncryptionService w.svc.keyMgr.currentKey).toOption
          { key := newKey } (w.svc.keyMgr.keyVersion + 1) cards
          { w with
            svc := { w.svc with keyMgr :=
              { currentKey := newKey, previousKey := some w.svc.keyMgr.currentKey,
                keyVersion := w.svc.keyMgr.keyVersion + 1, rotationTime := now } }
            rand := r1, repo := repo1 } with
      | (none, w2) => (.error .nilDeref, w2)
      | (some responses, w2) =>
        (.ok responses, { w2 with svc := { w2.svc with encSvc := { key := newKey } } }) := by
  simp only [RotateKeys, hget, hrot, KeyManager.GetCurrentKey, KeyManager.GetPreviousKey,
    NewEncryptionService_ok hlen, Option.getD_some]

/-- A run of `RotateKeys` that returns responses went through a successful rotation. -/
theorem rotateKeys_ok_rotated {σ : Type} (L : CryptoLib) (R : CardRepository σ) (w w' : World σ)
    (now : Nat) (cards : List Card) (repo1 : σ) (resps : List BatchUpdateResponse)
    (hget : R.GetAllCards w.repo = (.ok cards, repo1))
    (hrun : RotateKeys L R w now = (.ok resps, w')) :
    ∃ newKey r1, newKey.length = 32 ∧
      w.svc.keyMgr.RotateKey w.rand now =
        (none, { currentKey := newKey, previousKey := some w.svc.keyMgr.currentKey,
                 keyVersion := w.svc.keyMgr.keyVersion + 1, rotationTime := now }, r1) := by
  rcases hrot : w.svc.keyMgr.RotateKey w.rand now with ⟨res, km, r1⟩
  cases res with
  | some err => simp [RotateKeys, hget, hrot] at hrun
  | none =>
    obtain ⟨newKey, hkm, hlen⟩ := rotateKey_ok_inv _ _ _ _ _ hrot
    exact ⟨newKey, r1, hlen, by rw [hkm]⟩

/-- The method `Decrypt` never returns the key-unavailable error of `decryptCardNumber`. -/
theorem decrypt_ne_keyUnavailable (L : CryptoLib) (e : EncryptionService) (c : Bytes) :
    e.Decrypt L c ≠ .error errKeyUnavailable := by
  unfold EncryptionService.Decrypt errKeyUnavailable
  split
  · simp
  · dsimp only
    split
    · simp
    · split <;> simp

/-- The record that `CreateCard` builds and hands to `repo.Create`. -/
theorem createCard_ok_inv {σ : Type} (L : CryptoLib) (R : CardRepository σ)
    (order : List (String × List Regex)) (w w' : World σ) (userID : UUID) (req : CardRequest)
    (resp : CardResponse) (h : CreateCard L R order w userID req = (.ok resp, w')) :
    ∃ (c1 c2 : Bytes) (r1 r2 : Rand) (db : DbFields),
      isValidCardNumber (stripSpaces req.CardNumber) = true ∧
      w.svc.encSvc.Encrypt L (stripSpaces req.CardNumber) w.rand = (.ok c1, r1) ∧
      w.svc.encSvc.Encrypt L req.CVV r1 = (.ok c2, r2) ∧
      w'.stored = w.stored ++
        [{ ID := 0, UserID := userID, CardholderName := req.CardholderName, CardNumber := c1,
           ExpiryMonth := req.ExpiryMonth, ExpiryYear := req.ExpiryYear, CVV := c2,
           CardType := detectCardType order (stripSpaces req.CardNumber), IsActive := false,
           KeyVersion := w.svc.keyMgr.GetCurrentKey.2, CreatedAt := 0, UpdatedAt := 0 }] ∧
      resp = toCardResponse
        { ID := db.ID, UserID := userID, CardholderName := req.CardholderName, CardNumber := c1,
          ExpiryMonth := req.ExpiryMonth, ExpiryYear := req.ExpiryYear, CVV := c2,
          CardType := detectCardType order (stripSpaces req.CardNumber),
          IsActive := db.IsActive, KeyVersion := w.svc.keyMgr.GetCurrentKey.2,
          CreatedAt := db.CreatedAt, UpdatedAt := db.UpdatedAt }
        (stripSpaces req.CardNumber) := by
  unfold CreateCard at h
  cases hv : isValidCardNumber (stripSpaces req.CardNumber) with
  | false => simp [hv] at h
  | true =>
    rcases he1 : w.svc.encSvc.Encrypt L (stripSpaces req.CardNumber) w.rand with ⟨res1, r1⟩
    cases res1 with
    | error err => simp [hv, he1] at h
    | ok c1 =>
      rcases he2 : w.svc.encSvc.Encrypt L req.CVV r1 with ⟨res2, r2⟩
      cases res2 with
      | error err => simp [hv, he1, he2] at h
      | ok c2 =>
        simp only [hv, he1, he2, Bool.not_true, Bool.false_eq_true, if_false] at h
        split at h
        · simp at h
        · rename_i db repo1 hc
          simp only [Prod.mk.injEq, Except.ok.injEq] at h
          exact ⟨c1, c2, r1, r2, db, rfl, rfl, he2, by rw [← h.2], h.1.symm⟩

/-- When every entry of the visiting order that matches carries the name `name`, and some
entry matches, `detectCardType` returns `name`. -/
theorem detectCardType_of_unique (name : String) (s : Bytes) :
    ∀ (order : List (String × List Regex)),
      (∀ p ∈ order, MatchString p.2 s = true → p.1 = name) →
      (∃ p ∈ order, MatchString p.2 s = true) →
      detectCardType order s = name := by
  intro order
  induction order with
  | nil =>
    intro _ hex
    obtain ⟨p, hp, _⟩ := hex
    cases hp
  | cons q rest ih =>
    intro hall hex
    obtain ⟨cardType, pattern⟩ := q
    unfold detectCardType
    by_cases hm : MatchString pattern s = true
    · rw [if_pos hm]
      exact hall (cardType, pattern) (List.mem_cons_self _ _) hm
    · rw [if_neg hm]
      apply ih (fun p hp => hall p (List.mem_cons_of_mem _ hp))
      obtain ⟨p, hp, hpm⟩ := hex
      rcases List.mem_cons.mp hp with rfl | hp'
      · exact absurd hpm hm
      · exact ⟨p, hp', hpm⟩

/-- The test's card number is a Visa number in whatever order the patterns are visited. -/
theorem detectCardType_test_number (order : List (String × List Regex))
    (horder : order.Perm patterns) :
    detectCardType order (str "4111111111111111") = "Visa" := by
  apply detectCardType_of_unique
  · have h : ∀ p ∈ patterns, MatchString p.2 (str "4111111111111111") = true → p.1 = "Visa" := by
      decide
    exact fun p hp => h p (horder.mem_iff.mp hp)
  · have h : ∃ p ∈ patterns, MatchString p.2 (str "4111111111111111") = true := by decide
    obtain ⟨p, hp, hpm⟩ := h
    exact ⟨p, horder.mem_iff.mpr hp, hpm⟩

theorem byte_sub_48 (c : Byte) :
    ((c - 48 : Byte).val : Nat) = (c.val + 208) % 256 := by
  rw [Fin.sub_def]
  simp only [Fin.val_mk]
  have : ((48 : Byte).val : Nat) = 48 := rfl
  omega

/-- The loop of `isValidCardNumber` on the bytes `l` standing at positions `k, k+1, ...`
from the right, entered with the running total `sum` and the flag `alternate`. -/
theorem luhnLoop_iff :
    ∀ (l : Bytes) (sum : Int) (alternate : Bool) (k : Nat),
      (alternate = true ↔ k % 2 = 1) →
      (luhnLoop l sum alternate = true ↔
        (∀ c ∈ l, isAsciiDigit c) ∧ (sum + (luhnTotalFrom k l : Nat)) % 10 = 0) := by
  intro l
  induction l with
  | nil =>
    intro sum alternate k _
    simp [luhnLoop, luhnTotalFrom]
  | cons c rest ih =>
    intro sum alternate k halt
    have hsub := byte_sub_48 c
    have hc := c.isLt
    unfold luhnLoop
    simp only [List.mem_cons, forall_eq_or_imp]
    by_cases hd : isAsciiDigit c
    · have hd' := hd
      unfold isAsciiDigit at hd'
      have hval : ((c - 48 : Byte).val : Nat) = c.val - 48 := by omega
      have hlt : ¬ ((((c - 48 : Byte).val : Nat) : Int) < 0 ∨
          (((c - 48 : Byte).val : Nat) : Int) > 9) := by omega
      rw [if_neg hlt]
      have hnext : ((!alternate) = true ↔ (k + 1) % 2 = 1) := by
        cases alternate <;> simp at halt ⊢ <;> omega
      rw [ih _ (!alternate) (k + 1) hnext]
      have htot : luhnTotalFrom k (c :: rest) =
          luhnTerm k (digitValue c) + luhnTotalFrom (k + 1) rest := by
        simp [luhnTotalFrom, List.enumFrom_cons]
      rw [htot]
      simp only [hd, true_and]
      have hterm : ((if alternate = true then
            (if (((c - 48 : Byte).val : Nat) : Int) * 2 > 9 then
              (((c - 48 : Byte).val : Nat) : Int) * 2 % 10 +
                (((c - 48 : Byte).val : Nat) : Int) * 2 / 10
            else (((c - 48 : Byte).val : Nat) : Int) * 2)
          else (((c - 48 : Byte).val : Nat) : Int)) : Int) =
          ((luhnTerm k (digitValue c) : Nat) : Int) := by
        unfold luhnTerm digitValue
        rw [hval]
        cases alternate with
        | true =>
          have hk : k % 2 = 1 := halt.mp rfl
          simp only [if_true, hk]
          split <;> split <;> omega
        | false =>
          have hk : ¬ k % 2 = 1 := fun h => by simpa using halt.mpr h
          simp only [Bool.false_eq_true, if_false, hk]
      simp only [hterm]
      constructor
      · intro ⟨h1, h2⟩
        refine ⟨h1, ?_⟩
        push_cast
        omega
      · intro ⟨h1, h2⟩
        refine ⟨h1, ?_⟩
        push_cast at h2
        omega
    · have hd' := hd
      unfold isAsciiDigit at hd'
      have hgt : ((((c - 48 : Byte).val : Nat) : Int) < 0 ∨
          (((c - 48 : Byte).val : Nat) : Int) > 9) := by omega
      rw [if_pos hgt]
      simp [hd]

/-- The shape of a failing rotation: the error of the random source is returned and the
key manager is left as it was. -/
theorem rotateKey_fail_inv (km km' : KeyManager) (r r' : Rand) (now : Nat) (err : Error)
    (h : km.RotateKey r now = (some err, km', r')) :
    km' = km ∧ err = .randRead ∧ (randRead 32 r).2.1 = true := by
  unfold KeyManager.RotateKey at h
  rcases hq : randRead 32 r with ⟨newKey, e, r1⟩
  rw [hq] at h
  cases e with
  | true =>
    simp only [Prod.mk.injEq, Option.some.injEq] at h
    exact ⟨h.2.1.symm, h.1.symm, rfl⟩
  | false => simp at h

/-- One iteration of the sweep leaves the service as it was. -/
theorem rotateCard_svc {σ : Type} (L : CryptoLib) (R : CardRepository σ)
    (old : Option EncryptionService) (new : EncryptionService) (ver : Int) (card : Card)
    (w : World σ) : (rotateCard L R old new ver card w).2.svc = w.svc := by
  unfold rotateCard
  repeat' (first | split | dsimp only)

theorem rotateLoop_svc {σ : Type} (L : CryptoLib) (R : CardRepository σ)
    (old : Option EncryptionService) (new : EncryptionService) (ver : Int) :
    ∀ (cards : List Card) (w : World σ),
      (rotateLoop L R old new ver cards w).2.svc = w.svc := by
  intro cards
  induction cards with
  | nil => intro w; rfl
  | cons card rest ih =>
    intro w
    unfold rotateLoop
    have h1 := rotateCard_svc L R old new ver card w
    rcases hc : rotateCard L R old new ver card w with ⟨o1, w1⟩
    rw [hc] at h1
    cases o1 with
    | none => exact h1
    | some resp =>
      have h2 := ih w1
      dsimp only
      rcases hl : rotateLoop L R old new ver rest w1 with ⟨o2, w2⟩
      rw [hl] at h2
      cases o2 with
      | none => exact h2.trans h1
      | some rs => exact h2.trans h1

/-- The key-unavailable error of `decryptCardNumber` shows that no previous key is
held. -/
theorem previous_none_of_keyUnavailable (L : CryptoLib) (s : cardService) (card : Card)
    (h : decryptCardNumber L s card = .error errKeyUnavailable) :
    s.keyMgr.GetPreviousKey = none := by
  unfold decryptCardNumber at h
  dsimp only at h
  split at h
  · exact absurd h (decrypt_ne_keyUnavailable L _ _)
  · split at h
    · rename_i prev hprev
      split at h
      · rename_i err herr
        simp only [NewEncryptionService] at herr
        split at herr
        · cases herr
        · cases herr
          simp [errKeyUnavailable] at h
      · exact absurd h (decrypt_ne_keyUnavailable L _ _)
    · assumption

/-- The invariant of the reachable key manager states. -/
theorem reachable_invariant (km : KeyManager) (n : Nat) (h : km.Reachable n) :
    km.keyVersion = 1 + n ∧ (km.previousKey = none ↔ n = 0) := by
  induction h with
  | new r now => exact ⟨rfl, by simp [NewKeyManager]⟩
  | rotateOk km km' n r r' now _ hrot ih =>
    obtain ⟨newKey, hkm, _⟩ := rotateKey_ok_inv km km' r r' now hrot
    subst hkm
    refine ⟨?_, by simp⟩
    simp only [ih.1]
    push_cast
    ring
  | rotateFail km km' n r r' now err _ hrot ih =>
    obtain ⟨hkm, _, _⟩ := rotateKey_fail_inv km km' r r' now err hrot
    subst hkm
    exact ih

/-- An iteration of the sweep does not read the record's `KeyVersion`. -/
theorem rotateCard_keyVersion {σ : Type} (L : CryptoLib) (R : CardRepository σ)
    (old : Option EncryptionService) (new : EncryptionService) (ver : Int) (card : Card)
    (v : Int) (w : World σ) :
    rotateCard L R old new ver { card with KeyVersion := v } w =
      rotateCard L R old new ver card w := by
  simp only [rotateCard]

theorem rotateLoop_keyVersion {σ : Type} (L : CryptoLib) (R : CardRepository σ)
    (old : Option EncryptionService) (new : EncryptionService) (ver : Int) (f : Card → Int) :
    ∀ (cards : List Card) (w : World σ),
      rotateLoop L R old new ver (cards.map (fun c => { c with KeyVersion := f c })) w =
        rotateLoop L R old new ver cards w := by
  intro cards
  induction cards with
  | nil => intro w; rfl
  | cons card rest ih =>
    intro w
    simp only [List.map_cons, rotateLoop, rotateCard_keyVersion, ih]

theorem flipBit_ne (b : Byte) (j : Fin 8) : flipBit b j ≠ b := by
  intro h
  have hv := congrArg Fin.val h
  have hb := b.isLt
  unfold flipBit at hv
  fin_cases j <;> simp only [Fin.ofNat, Fin.val_mk] at hv <;> split at hv <;>
    simp only [Fin.val_mk] at hv <;> omega

theorem flipBitAt_length : ∀ (bs : Bytes) (i : Nat) (j : Fin 8),
    (flipBitAt bs i j).length = bs.length := by
  intro bs
  induction bs with
  | nil => intro i j; rfl
  | cons b bs ih =>
    intro i j
    cases i with
    | zero => rfl
    | succ i => simp [flipBitAt, ih]

theorem flipBitAt_ne : ∀ (bs : Bytes) (i : Nat) (j : Fin 8), i < bs.length →
    flipBitAt bs i j ≠ bs := by
  intro bs
  induction bs with
  | nil => intro i j h; simp at h
  | cons b bs ih =>
    intro i j h
    cases i with
    | zero =>
      intro heq
      simp only [flipBitAt, List.cons.injEq, and_true] at heq
      exact flipBit_ne b j heq
    | succ i =>
      intro heq
      simp only [flipBitAt, List.cons.injEq, true_and] at heq
      exact ih i j (by simpa using h) heq

theorem flipBitAt_append_left : ∀ (a b : Bytes) (i : Nat) (j : Fin 8), i < a.length →
    flipBitAt (a ++ b) i j = flipBitAt a i j ++ b := by
  intro a
  induction a with
  | nil => intro b i j h; simp at h
  | cons x a ih =>
    intro b i j h
    cases i with
    | zero => rfl
    | succ i =>
      simp only [List.cons_append, flipBitAt, List.cons.injEq, true_and]
      exact ih b i j (by simpa using h)

theorem flipBitAt_append_right : ∀ (a b : Bytes) (i : Nat) (j : Fin 8), a.length ≤ i →
    flipBitAt (a ++ b) i j = a ++ flipBitAt b (i - a.length) j := by
  intro a
  induction a with
  | nil => intro b i j _; rfl
  | cons x a ih =>
    intro b i j h
    cases i with
    | zero => simp at h
    | succ i =>
      simp only [List.cons_append, flipBitAt, List.cons.injEq, true_and, List.length_cons,
        Nat.add_sub_add_right]
      exact ih b i j (by simpa using h)

theorem strictLib_sound : strictLib.Sound := by
  constructor
  · intro key nonce p
    have h := modelLib_sound.open_seal key nonce p
    simp only [modelLib, modelSeal] at h
    simp only [strictLib, strictOpen, strictSeal, List.length_append]
    have hhalf : (p.length + (key.length + nonce.length) +
        (p.length + (key.length + nonce.length))) / 2 =
        (p ++ (key ++ nonce)).length := by
      simp only [List.length_append]
      omega
    rw [hhalf, List.take_left' rfl]
    simpa using h
  · intro b
    simp [strictLib, strictDecode]

theorem strictLib_tamperEvident : strictLib.TamperEvident := by
  intro key nonce p i j hi
  simp only [strictLib, strictSeal] at hi ⊢
  generalize hx : p ++ (key ++ nonce) = x at hi ⊢
  have hlen : (flipBitAt (x ++ x) i j).length / 2 = x.length := by
    rw [flipBitAt_length, List.length_append]
    omega
  unfold strictOpen
  simp only [hlen]
  rw [List.length_append] at hi
  by_cases hlt : i < x.length
  · rw [flipBitAt_append_left x x i j hlt]
    have hl : (flipBitAt x i j).length = x.length := flipBitAt_length x i j
    rw [← hl, List.take_left' rfl, if_neg]
    intro heq
    exact flipBitAt_ne x i j hlt (List.append_cancel_left heq).symm
  · rw [flipBitAt_append_right x x i j (by omega), List.take_left' rfl, if_neg]
    intro heq
    exact flipBitAt_ne x (i - x.length) j (by omega) (List.append_cancel_left heq)

theorem rests_lead (a : Regex) (c : Byte) (ha : a.lead = some c) (s t : Bytes)
    (ht : t ∈ a.rests s) : s.head? = some c := by
  cases a with
  | seq a b =>
    cases a with
    | lit c' =>
      simp only [Regex.lead, Option.some.injEq] at ha
      subst ha
      cases s with
      | nil => simp [Regex.rests] at ht
      | cons x u =>
        by_cases hx : x = c'
        · simp [hx]
        · simp [Regex.rests, hx] at ht
    | _ => simp [Regex.lead] at ha
  | _ => simp [Regex.lead] at ha

/-- A pattern of `patterns` that matches determines its brand by the first byte of the
input. -/
theorem brand_of_match (s : Bytes) (p : String × List Regex) (hp : p ∈ patterns)
    (hm : MatchString p.2 s = true) : ∃ c, s.head? = some c ∧ brandOfLead c = p.1 := by
  have hall : ∀ q ∈ patterns, ∀ a ∈ q.2, a.lead.map brandOfLead = some q.1 := by decide
  simp only [MatchString, List.any_eq_true] at hm
  obtain ⟨a, ha, t, ht, _⟩ := hm
  have h1 := hall p hp a ha
  cases hl : a.lead with
  | none => simp [hl] at h1
  | some c =>
    rw [hl] at h1
    exact ⟨c, rests_lead a c hl s t ht, Option.some.inj h1⟩

theorem detectCardType_eq_firstMatch (s : Bytes) :
    ∀ (order : List (String × List Regex)), detectCardType order s = firstMatch order s := by
  intro order
  induction order with
  | nil => rfl
  | cons q rest ih =>
    obtain ⟨cardType, pattern⟩ := q
    unfold detectCardType
    by_cases hm : MatchString pattern s = true
    · simp [firstMatch, List.find?, hm]
    · rw [if_neg hm, ih]
      simp [firstMatch, List.find?, hm]

theorem detectCardType_unknown (s : Bytes) :
    ∀ (order : List (String × List Regex)),
      (∀ p ∈ order, MatchString p.2 s = false) → detectCardType order s = "Unknown" := by
  intro order
  induction order with
  | nil => intro _; rfl
  | cons q rest ih =>
    intro h
    obtain ⟨cardType, pattern⟩ := q
    unfold detectCardType
    have hq : MatchString pattern s = false := h (cardType, pattern) (List.mem_cons_self _ _)
    simp only [hq, Bool.false_eq_true, if_false]
    exact ih (fun p hp => h p (List.mem_cons_of_mem _ hp))

/-- When a pattern of `patterns` matches, every visiting order yields its brand. -/
theorem detectCardType_of_match (order : List (String × List Regex))
    (horder : order.Perm patterns) (s : Bytes) (p : String × List Regex) (hp : p ∈ patterns)
    (hm : MatchString p.2 s = true) : detectCardType order s = p.1 := by
  obtain ⟨c, hc, hb⟩ := brand_of_match s p hp hm
  apply detectCardType_of_unique
  · intro q hq hqm
    obtain ⟨c', hc', hb'⟩ := brand_of_match s q (horder.mem_iff.mp hq) hqm
    rw [hc] at hc'
    cases hc'
    rw [← hb, ← hb']
  · exact ⟨p, horder.mem_iff.mpr hp, hm⟩

theorem rests_seq (a b : Regex) (s : Bytes) :
    (Regex.seq a b).rests s = (a.rests s).flatMap (fun t => b.rests t) := by
  rw [Regex.rests]

theorem rests_lit_cons (c : Byte) (u : Bytes) : (Regex.lit c).rests (c :: u) = [u] := by
  simp [Regex.rests]

theorem digit_rests (x : Byte) (u : Bytes) (hx : isAsciiDigit x) :
    Regex.digit.rests (x :: u) = [u] := by
  unfold isAsciiDigit at hx
  have h1 : (48 : Byte) ≤ x := by
    rw [Fin.le_def]
    exact hx.1
  have h2 : x ≤ (57 : Byte) := by
    rw [Fin.le_def]
    exact hx.2
  simp [Regex.digit, Regex.rests, h1, h2]

theorem iterate_digit_rests :
    ∀ (n : Nat) (l t : Bytes) (ts : List Bytes), l.length = n → (∀ c ∈ l, isAsciiDigit c) →
      l ++ t ∈ ts →
      t ∈ Nat.iterate (fun ts => ts.flatMap (fun u => Regex.digit.rests u)) n ts := by
  intro n
  induction n with
  | zero =>
    intro l t ts hl _ hmem
    have : l = [] := List.length_eq_zero.mp hl
    subst this
    simpa using hmem
  | succ n ih =>
    intro l t ts hl hd hmem
    cases l with
    | nil => simp at hl
    | cons x l =>
      rw [Function.iterate_succ_apply]
      apply ih l t _ (by simpa using hl) (fun c hc => hd c (List.mem_cons_of_mem _ hc))
      rw [List.mem_flatMap]
      exact ⟨x :: l ++ t, hmem, by
        rw [List.cons_append, digit_rests x (l ++ t) (hd x (List.mem_cons_self _ _))]
        simp⟩

theorem rep_digit_rests (n : Nat) (l t : Bytes) (hl : l.length = n)
    (hd : ∀ c ∈ l, isAsciiDigit c) : t ∈ (Regex.rep .digit n).rests (l ++ t) := by
  unfold Regex.rests
  exact iterate_digit_rests n l t [l ++ t] hl hd (List.mem_singleton.mpr rfl)

/-- The Visa pattern matches every string of 13 or 16 digits that starts with `'4'`. -/
theorem visa_matches (s : Bytes) (hhead : s.head? = some 52)
    (hlen : s.length = 13 ∨ s.length = 16) (hd : ∀ c ∈ s, isAsciiDigit c) :
    MatchString [.seq (.lit 52) (.seq (.rep .digit 12) (.opt (.rep .digit 3)))] s = true := by
  cases s with
  | nil => simp at hhead
  | cons x ds =>
    simp only [List.head?_cons, Option.some.injEq] at hhead
    subst hhead
    have hds : ∀ c ∈ ds, isAsciiDigit c := fun c hc => hd c (List.mem_cons_of_mem _ hc)
    have hlen' : ds.length = 12 ∨ ds.length = 15 := by
      simp only [List.length_cons] at hlen
      omega
    have h12 : ds.drop 12 ∈ (Regex.rep .digit 12).rests ds := by
      have h := rep_digit_rests 12 (ds.take 12) (ds.drop 12)
        (by rw [List.length_take]; omega) (fun c hc => hds c (List.mem_of_mem_take hc))
      rwa [List.take_append_drop] at h
    have hopt : [] ∈ (Regex.opt (.rep .digit 3)).rests (ds.drop 12) := by
      rcases hlen' with h | h
      · have hnil : ds.drop 12 = [] := List.drop_eq_nil_of_le (by omega)
        rw [hnil]
        simp [Regex.rests]
      · have h3 := rep_digit_rests 3 (ds.drop 12) [] (by rw [List.length_drop]; omega)
          (fun c hc => hds c (List.mem_of_mem_drop hc))
        rw [List.append_nil] at h3
        rw [Regex.rests]
        exact List.mem_append_left _ h3
    have hall : [] ∈
        (Regex.seq (.lit 52) (.seq (.rep .digit 12) (.opt (.rep .digit 3)))).rests
          (52 :: ds) := by
      rw [rests_seq, rests_lit_cons]
      simp only [List.flatMap_cons, List.flatMap_nil, List.append_nil]
      rw [rests_seq, List.mem_flatMap]
      exact ⟨ds.drop 12, h12, hopt⟩
    simp only [MatchString, List.any_cons, List.any_nil, Bool.or_false, List.any_eq_true]
    exact ⟨[], hall, rfl⟩

/-- Every visiting order of the patterns gives the result of the source order. -/
theorem detectCardType_perm (order : List (String × List Regex))
    (horder : order.Perm patterns) (s : Bytes) :
    detectCardType order s = detectCardType patterns s := by
  by_cases hex : ∃ p ∈ patterns, MatchString p.2 s = true
  · obtain ⟨p, hp, hm⟩ := hex
    rw [detectCardType_of_match order horder s p hp hm,
      detectCardType_of_match patterns (List.Perm.refl _) s p hp hm]
  · have hno : ∀ p ∈ patterns, MatchString p.2 s = false := by
      intro p hp
      cases hm : MatchString p.2 s with
      | false => rfl
      | true => exact absurd ⟨p, hp, hm⟩ hex
    rw [detectCardType_unknown s order (fun p hp => hno p (horder.mem_iff.mp hp)),
      detectCardType_unknown s patterns hno]

/-- An iteration of the sweep on any record, with a valid old cipher and a random source
that does not fail: it returns a response, appends what it hands to `repo.Update` to the
log, and leaves the random source unfailing. -/
theorem rotateCard_total {σ : Type} (L : CryptoLib) (R : CardRepository σ)
    (old new : EncryptionService) (ver : Int) (card : Card) (w : World σ)
    (hr : w.rand.NeverFails) :
    ∃ (resp : BatchUpdateResponse) (w' : World σ) (l : List Card),
      rotateCard L R (some old) new ver card w = (some resp, w') ∧
      w'.rand.NeverFails ∧ w'.stored = w.stored ++ l ∧ w'.svc = w.svc := by
  cases hn : old.Decrypt L card.CardNumber with
  | error err =>
    obtain ⟨msg, h⟩ := rotateCard_corrupt L R old new ver card w (Or.inl ⟨err, hn⟩)
    exact ⟨_, w, [], h, hr, by simp, rfl⟩
  | ok pn =>
    cases hc : old.Decrypt L card.CVV with
    | error err =>
      obtain ⟨msg, h⟩ := rotateCard_corrupt L R old new ver card w (Or.inr ⟨err, hc⟩)
      exact ⟨_, w, [], h, hr, by simp, rfl⟩
    | ok pc =>
      obtain ⟨c1, r1, he1, hr1⟩ := encrypt_neverFails L new pn w.rand hr
      obtain ⟨c2, r2, he2, hr2⟩ := encrypt_neverFails L new pc r1 hr1
      let h : Card := { card with CardNumber := c1, CVV := c2, KeyVersion := ver }
      rcases hu : R.Update w.repo h with ⟨res, repo1⟩
      let w2 : World σ := { w with rand := r2, repo := repo1, stored := w.stored ++ [h] }
      cases res with
      | error e =>
        exact ⟨{ CardID := card.ID, Status := "failed", Error := "failed to update card" },
          w2, [h], by simp only [rotateCard, DecryptVia, hn, hc, he1, he2, hu, h, w2],
          hr2, rfl, rfl⟩
      | ok t =>
        exact ⟨{ CardID := card.ID, Status := "success", Error := "" },
          w2, [h], by simp only [rotateCard, DecryptVia, hn, hc, he1, he2, hu, h, w2],
          hr2, rfl, rfl⟩

theorem rotateLoop_total {σ : Type} (L : CryptoLib) (R : CardRepository σ)
    (old new : EncryptionService) (ver : Int) :
    ∀ (cards : List Card) (w : World σ), w.rand.NeverFails →
      ∃ (resps : List BatchUpdateResponse) (w' : World σ) (l : List Card),
        rotateLoop L R (some old) new ver cards w = (some resps, w') ∧
        w'.rand.NeverFails ∧ w'.stored = w.stored ++ l ∧ w'.svc = w.svc := by
  intro cards
  induction cards with
  | nil =>
    intro w hr
    exact ⟨[], w, [], rfl, hr, by simp, rfl⟩
  | cons card rest ih =>
    intro w hr
    obtain ⟨resp, w1, l1, h1, hr1, hs1, hv1⟩ := rotateCard_total L R old new ver card w hr
    obtain ⟨resps, w2, l2, h2, hr2, hs2, hv2⟩ := ih w1 hr1
    refine ⟨resp :: resps, w2, l1 ++ l2, ?_, hr2, ?_, hv2.trans hv1⟩
    · simp only [rotateLoop, h1, h2]
    · rw [hs2, hs1, List.append_assoc]

/-- The loop over records that the old cipher decrypts, with one record in their midst
that it does not: the failure is reported for that record alone, every other record is
reported as a success and handed to `repo.Update` re-encrypted and tagged. -/
theorem rotateLoop_isolated {σ : Type} {L : CryptoLib} (hL : L.Sound) (R : CardRepository σ)
    (hR : R.UpdateNeverFails) (old new : EncryptionService) (ver : Int)
    (pre post : List (Card × Bytes × Bytes)) (bad : Card)
    (hdec : ∀ cp ∈ pre ++ post, old.Decrypt L cp.1.CardNumber = .ok cp.2.1 ∧
      old.Decrypt L cp.1.CVV = .ok cp.2.2)
    (hbad : (∃ err, old.Decrypt L bad.CardNumber = .error err) ∨
      (∃ err, old.Decrypt L bad.CVV = .error err))
    (w : World σ) (hr : w.rand.NeverFails) :
    ∃ (w' : World σ) (handed : List Card) (msg : String),
      rotateLoop L R (some old) new ver (pre.map Prod.fst ++ bad :: post.map Prod.fst) w =
        (some ((pre.map Prod.fst).map
            (fun c => { CardID := c.ID, Status := "success", Error := "" }) ++
          { CardID := bad.ID, Status := "failed", Error := msg } ::
          (post.map Prod.fst).map
            (fun c => { CardID := c.ID, Status := "success", Error := "" })), w') ∧
      w'.stored = w.stored ++ handed ∧
      List.Forall₂ (Reencrypted L new ver) handed (pre ++ post) ∧ w'.svc = w.svc := by
  obtain ⟨w1, handed1, h1, hs1, hall1, hr1, hv1⟩ :=
    rotateLoop_success hL R hR old new ver pre
      (fun cp hcp => hdec cp (List.mem_append_left _ hcp)) w hr
  obtain ⟨msg, hb⟩ := rotateCard_corrupt L R old new ver bad w1 hbad
  obtain ⟨w2, handed2, h2, hs2, hall2, _, hv2⟩ :=
    rotateLoop_success hL R hR old new ver post
      (fun cp hcp => hdec cp (List.mem_append_right _ hcp)) w1 hr1
  refine ⟨w2, handed1 ++ handed2, msg, ?_, ?_, List.rel_append hall1 hall2, hv2.trans hv1⟩
  · rw [rotateLoop_append, h1]
    simp only [rotateLoop, hb, h2]
  · rw [hs2, hs1, List.append_assoc]

/-- The loop over any records, with a random source and a `repo.Update` that do not
fail: a record that the old cipher decrypts is reported as a success and handed to
`repo.Update` re-encrypted and tagged, whatever the other records are. -/
theorem rotateLoop_card_success {σ : Type} {L : CryptoLib} (hL : L.Sound)
    (R : CardRepository σ) (hR : R.UpdateNeverFails) (old new : EncryptionService)
    (ver : Int) (pre post : List Card) (card : Card) (pn pc : Bytes)
    (hn : old.Decrypt L card.CardNumber = .ok pn) (hc : old.Decrypt L card.CVV = .ok pc)
    (w : World σ) (hr : w.rand.NeverFails) :
    ∃ (w' : World σ) (respsPre respsPost : List BatchUpdateResponse)
      (before after : List Card) (h : Card),
      rotateLoop L R (some old) new ver (pre ++ card :: post) w =
        (some (respsPre ++
          { CardID := card.ID, Status := "success", Error := "" } :: respsPost), w') ∧
      respsPre.length = pre.length ∧
      w'.stored = w.stored ++ before ++ h :: after ∧
      h.ID = card.ID ∧ h.KeyVersion = ver ∧
      new.Decrypt L h.CardNumber = .ok pn ∧ new.Decrypt L h.CVV = .ok pc ∧
      w'.svc = w.svc := by
  obtain ⟨r1, w1, l1, h1, hr1, hs1, hv1⟩ := rotateLoop_total L R old new ver pre w hr
  obtain ⟨w2, h, hstep, hs2, hid, hver, hdn, hdc, hr2, hv2⟩ :=
    rotateCard_success hL R hR old new ver card pn pc hn hc w1 hr1
  obtain ⟨r3, w3, l3, h3, _, hs3, hv3⟩ := rotateLoop_total L R old new ver post w2 hr2
  refine ⟨w3, r1, r3, l1, l3, h, ?_, rotateLoop_length L R _ _ _ _ _ _ _ h1, ?_, hid, hver,
    hdn, hdc, hv3.trans (hv2.trans hv1)⟩
  · rw [rotateLoop_append, h1]
    simp only [rotateLoop, hstep, h3]
  · rw [hs3, hs2, hs1]
    simp

/-- A run of `RotateKeys` with a random source that does not fail and a valid key in
the key manager, in terms of its loop. -/
theorem rotateKeys_run {σ : Type} (L : CryptoLib) (R : CardRepository σ) (w : World σ)
    (now : Nat) (cards : List Card) (repo1 : σ) (old : EncryptionService)
    (hget : R.GetAllCards w.repo = (.ok cards, repo1))
    (hold : NewEncryptionService w.svc.keyMgr.GetCurrentKey.1 = .ok old)
    (hr : w.rand.NeverFails) :
    ∃ (newKey : Bytes) (w1 : World σ), newKey.length = 32 ∧ w1.rand.NeverFails ∧
      w1.stored = w.stored ∧
      w1.svc.keyMgr =
        { currentKey := newKey, previousKey := some w.svc.keyMgr.currentKey,
          keyVersion := w.svc.keyMgr.keyVersion + 1, rotationTime := now } ∧
      RotateKeys L R w now =
        match rotateLoop L R (some old) { key := newKey } (w.svc.keyMgr.keyVersion + 1)
            cards w1 with
        | (none, w2) => (.error .nilDeref, w2)
        | (some responses, w2) =>
          (.ok responses, { w2 with svc := { w2.svc with encSvc := { key := newKey } } }) := by
  obtain ⟨newKey, r1, hrot, hlen, hr1⟩ := rotateKey_neverFails w.svc.keyMgr w.rand now hr
  refine ⟨newKey,
    { w with
      svc := { w.svc with keyMgr :=
        { currentKey := newKey, previousKey := some w.svc.keyMgr.currentKey,
          keyVersion := w.svc.keyMgr.keyVersion + 1, rotationTime := now } }
      rand := r1, repo := repo1 }, hlen, hr1, rfl, rfl, ?_⟩
  rw [rotateKeys_eq_loop L R w now cards repo1 hget newKey r1 hlen hrot]
  simp only [KeyManager.GetCurrentKey] at hold
  simp only [hold, Except.toOption]

/-- An iteration of the sweep on a record that the old cipher decrypts and the new
cipher encrypts: the re-encrypted record, tagged with the new version, is handed to
`repo.Update`, and the response follows the result of `Update`. -/
theorem rotateCard_reencrypt {σ : Type} (L : CryptoLib) (R : CardRepository σ)
    (old new : EncryptionService) (ver : Int) (card : Card) (w : World σ)
    (pn pc c1 c2 : Bytes) (r1 r2 : Rand)
    (hn : old.Decrypt L card.CardNumber = .ok pn) (hc : old.Decrypt L card.CVV = .ok pc)
    (he1 : new.Encrypt L pn w.rand = (.ok c1, r1))
    (he2 : new.Encrypt L pc r1 = (.ok c2, r2)) :
    rotateCard L R (some old) new ver card w =
      match R.Update w.repo { card with CardNumber := c1, CVV := c2, KeyVersion := ver } with
      | (.error _, repo1) =>
        (some { CardID := card.ID, Status := "failed", Error := "failed to update card" },
          { w with
            rand := r2, repo := repo1
            stored := w.stored ++
              [{ card with CardNumber := c1, CVV := c2, KeyVersion := ver }] })
      | (.ok _, repo1) =>
        (some { CardID := card.ID, Status := "success", Error := "" },
          { w with
            rand := r2, repo := repo1
            stored := w.stored ++
              [{ card with CardNumber := c1, CVV := c2, KeyVersion := ver }] }) := by
  simp only [rotateCard, DecryptVia, hn, hc, he1, he2]

/-- An iteration of the sweep on a record that the old cipher decrypts, when an
encryption under the new key fails: the record is reported as failed and nothing is
handed to `repo.Update`. -/
theorem rotateCard_encrypt_fail {σ : Type} (L : CryptoLib) (R : CardRepository σ)
    (old new : EncryptionService) (ver : Int) (card : Card) (w : World σ) (pn pc : Bytes)
    (hn : old.Decrypt L card.CardNumber = .ok pn) (hc : old.Decrypt L card.CVV = .ok pc) :
    (∀ (err : Error) (r1 : Rand), new.Encrypt L pn w.rand = (.error err, r1) →
      rotateCard L R (some old) new ver card w =
        (some { CardID := card.ID, Status := "failed",
                Error := "failed to encrypt with new key" }, { w with rand := r1 })) ∧
    (∀ (c1 : Bytes) (err : Error) (r1 r2 : Rand), new.Encrypt L pn w.rand = (.ok c1, r1) →
      new.Encrypt L pc r1 = (.error err, r2) →
      rotateCard L R (some old) new ver card w =
        (some { CardID := card.ID, Status := "failed",
                Error := "failed to encrypt CVV with new key" }, { w with rand := r2 })) := by
  constructor
  · intro err r1 he1
    simp only [rotateCard, DecryptVia, hn, hc, he1]
  · intro c1 err r1 r2 he1 he2
    simp only [rotateCard, DecryptVia, hn, hc, he1, he2]

/-- The loop over any records, with a random source that does not fail: a record that
the old cipher does not decrypt is reported as failed, whatever the other records
are. -/
theorem rotateLoop_card_failed {σ : Type} (L : CryptoLib) (R : CardRepository σ)
    (old new : EncryptionService) (ver : Int) (pre post : List Card) (card : Card)
    (hbad : (∃ err, old.Decrypt L card.CardNumber = .error err) ∨
      (∃ err, old.Decrypt L card.CVV = .error err))
    (w : World σ) (hr : w.rand.NeverFails) :
    ∃ (w' : World σ) (respsPre respsPost : List BatchUpdateResponse) (msg : String),
      rotateLoop L R (some old) new ver (pre ++ card :: post) w =
        (some (respsPre ++
          { CardID := card.ID, Status := "failed", Error := msg } :: respsPost), w') ∧
      respsPre.length = pre.length ∧ w'.svc = w.svc := by
  obtain ⟨r1, w1, l1, h1, hr1, _, hv1⟩ := rotateLoop_total L R old new ver pre w hr
  obtain ⟨msg, hb⟩ := rotateCard_corrupt L R old new ver card w1 hbad
  obtain ⟨r3, w3, l3, h3, _, _, hv3⟩ := rotateLoop_total L R old new ver post w1 hr1
  refine ⟨w3, r1, r3, msg, ?_, rotateLoop_length L R _ _ _ _ _ _ _ h1, hv3.trans hv1⟩
  rw [rotateLoop_append, h1]
  simp only [rotateLoop, hb, h3]

/-! ## Claims -/

/-- C1. Round trip: for a 32-byte key `k` and the service `e` built from it, whenever
`Encrypt` succeeds on a plaintext `p` and returns `c`, `Decrypt` on the same service
returns exactly `p` on `c` with no error (the library's `Open` inverting `Seal` and
base64 decoding inverting encoding). -/
theorem encrypt_decrypt_roundtrip (L : CryptoLib) (hL : L.Sound) (k : Bytes)
    (hk : k.length = 32) (e : EncryptionService) (he : NewEncryptionService k = .ok e)
    (p c : Bytes) (r r' : Rand) (henc : e.Encrypt L p r = (.ok c, r')) :
    e.Decrypt L c = .ok p := by
  have _ := hk
  have _ := he
  exact decrypt_of_encrypt hL e henc

/-- The round trip of C1 on the test's plaintext, with a key of 32 bytes `7`. -/
theorem encrypt_decrypt_roundtrip_witness :
    (List.replicate 32 (7 : Byte)).length = 32 ∧
    NewEncryptionService (List.replicate 32 7) = .ok { key := List.replicate 32 7 } ∧
    (EncryptionService.Encrypt modelLib { key := List.replicate 32 7 }
        (str "4111111111111111") (countingRand 0)).1 =
      .ok (List.map Fin.ofNat (List.range 12) ++ str "4111111111111111" ++
            List.replicate 32 7 ++ List.map Fin.ofNat (List.range 12)) ∧
    EncryptionService.Decrypt modelLib { key := List.replicate 32 7 }
        (List.map Fin.ofNat (List.range 12) ++ str "4111111111111111" ++
            List.replicate 32 7 ++ List.map Fin.ofNat (List.range 12)) =
      .ok (str "4111111111111111") :=
  ⟨by decide, by decide, by rfl,
    encrypt_decrypt_roundtrip modelLib modelLib_sound (List.replicate 32 7) (by decide)
      { key := List.replicate 32 7 } (by decide) (str "4111111111111111") _ (countingRand 0)
      (EncryptionService.Encrypt modelLib { key := List.replicate 32 7 }
        (str "4111111111111111") (countingRand 0)).2 (by rfl)⟩

/-- C2. A successful `RotateKey` increments the version returned by `GetCurrentKey` by
exactly 1, and afterwards `GetPreviousKey` returns the secret that `GetCurrentKey`
returned immediately before; `NewKeyManager` starts at version 1, so the first rotation
yields version 2. -/
theorem rotateKey_version_and_previous (km km' : KeyManager) (r r' : Rand) (now : Nat)
    (h : km.RotateKey r now = (none, km', r')) :
    km'.GetCurrentKey.2 = km.GetCurrentKey.2 + 1 ∧
    km'.GetPreviousKey = some km.GetCurrentKey.1 ∧
    (∀ (r0 : Rand) (now0 : Nat), (NewKeyManager r0 now0).1.GetCurrentKey.2 = 1) ∧
    ((∃ r0 now0, km = (NewKeyManager r0 now0).1) → km'.GetCurrentKey.2 = 2) := by
  obtain ⟨newKey, hkm, _⟩ := rotateKey_ok_inv km km' r r' now h
  subst hkm
  refine ⟨rfl, rfl, fun _ _ => rfl, ?_⟩
  rintro ⟨r0, now0, rfl⟩
  rfl

/-- The rotation of C2 on the key manager that `NewKeyManager` builds from a source
delivering 0, 1, 2, ...: the rotation succeeds, version 1 becomes 2 and the first key
becomes the previous key. -/
theorem rotateKey_version_and_previous_witness :
    ((NewKeyManager (countingRand 0) 100).1.RotateKey (countingRand 32) 200).1 = none ∧
    (NewKeyManager (countingRand 0) 100).1.GetCurrentKey =
      (List.map Fin.ofNat (List.range 32), 1) ∧
    (rotated (NewKeyManager (countingRand 0) 100).1 (countingRand 32) 200).GetCurrentKey.2 =
      1 + 1 ∧
    (rotated (NewKeyManager (countingRand 0) 100).1 (countingRand 32) 200).GetPreviousKey =
      some (List.map Fin.ofNat (List.range 32)) ∧
    (rotated (NewKeyManager (countingRand 0) 100).1 (countingRand 32) 200).GetCurrentKey.2 = 2 :=
  have h := rotateKey_version_and_previous (NewKeyManager (countingRand 0) 100).1
      (rotated (NewKeyManager (countingRand 0) 100).1 (countingRand 32) 200)
      (countingRand 32)
      ((NewKeyManager (countingRand 0) 100).1.RotateKey (countingRand 32) 200).2.2 200 (by rfl)
  ⟨by decide, by decide, h.1, h.2.1, h.2.2.2 ⟨_, _, rfl⟩⟩

/-- C3. Sweep convergence: when `GetAllCards` returns records whose `CardNumber` and
`CVV` were encrypted under the key manager's pre-rotation current key, and the random
source and `repo.Update` never fail, `RotateKeys` returns "success" for every record, and
hands to `repo.Update`, one per record and in order, a record with the same identifier,
with `KeyVersion` equal to the post-rotation current version, and with `CardNumber` and
`CVV` that decrypt under the new current key to the original plaintexts. -/
theorem rotateKeys_sweep_convergence {σ : Type} (L : CryptoLib) (hL : L.Sound)
    (R : CardRepository σ) (hR : R.UpdateNeverFails) (w : World σ) (now : Nat)
    (cps : List (Card × Bytes × Bytes)) (repo1 : σ)
    (hget : R.GetAllCards w.repo = (.ok (cps.map Prod.fst), repo1))
    (old : EncryptionService)
    (hold : NewEncryptionService w.svc.keyMgr.GetCurrentKey.1 = .ok old)
    (henc : ∀ cp ∈ cps, EncryptedUnder L old cp.2.1 cp.1.CardNumber ∧
      EncryptedUnder L old cp.2.2 cp.1.CVV)
    (hr : w.rand.NeverFails) :
    ∃ (w' : World σ) (new : EncryptionService) (handed : List Card),
      RotateKeys L R w now =
        (.ok ((cps.map Prod.fst).map
          (fun c => { CardID := c.ID, Status := "success", Error := "" })), w') ∧
      w'.svc.keyMgr.GetCurrentKey.2 = w.svc.keyMgr.GetCurrentKey.2 + 1 ∧
      NewEncryptionService w'.svc.keyMgr.GetCurrentKey.1 = .ok new ∧
      w'.stored = w.stored ++ handed ∧
      List.Forall₂ (Reencrypted L new w'.svc.keyMgr.GetCurrentKey.2) handed cps := by
  obtain ⟨newKey, r1, hrot, hlen, hr1⟩ := rotateKey_neverFails w.svc.keyMgr w.rand now hr
  have hdec : ∀ cp ∈ cps, old.Decrypt L cp.1.CardNumber = .ok cp.2.1 ∧
      old.Decrypt L cp.1.CVV = .ok cp.2.2 := fun cp hcp =>
    ⟨decrypt_of_encryptedUnder hL (henc cp hcp).1, decrypt_of_encryptedUnder hL (henc cp hcp).2⟩
  obtain ⟨w2, handed, hloop, hst, hall, _, hsvc⟩ :=
    rotateLoop_success hL R hR old { key := newKey } (w.svc.keyMgr.keyVersion + 1) cps hdec
      { w with
        svc := { w.svc with keyMgr :=
          { currentKey := newKey, previousKey := some w.svc.keyMgr.currentKey,
            keyVersion := w.svc.keyMgr.keyVersion + 1, rotationTime := now } }
        rand := r1, repo := repo1 } hr1
  refine ⟨{ w2 with svc := { w2.svc with encSvc := { key := newKey } } }, { key := newKey },
    handed, ?_, ?_, ?_, hst, ?_⟩
  · simp only [KeyManager.GetCurrentKey] at hold
    simp only [RotateKeys, hget, hrot, KeyManager.GetCurrentKey, KeyManager.GetPreviousKey,
      NewEncryptionService_ok hlen, Option.getD_some, hold, Except.toOption, hloop]
  · simp [hsvc, KeyManager.GetCurrentKey]
  · simp only [hsvc, KeyManager.GetCurrentKey]
    exact NewEncryptionService_ok hlen
  · simpa [hsvc, KeyManager.GetCurrentKey] using hall

/-- The sweep of C3 over two records encrypted under the first key: both are reported as
successes, and both are handed to `repo.Update` tagged with version 2 and decryptable by
the new cipher. -/
theorem rotateKeys_sweep_convergence_witness :
    (RotateKeys modelLib memRepo twoCardWorld 0).1 =
      .ok [ { CardID := 1, Status := "success", Error := "" },
            { CardID := 2, Status := "success", Error := "" } ] ∧
    (RotateKeys modelLib memRepo twoCardWorld 0).2.stored.map
      (fun h => (h.ID, h.KeyVersion,
        (RotateKeys modelLib memRepo twoCardWorld 0).2.svc.encSvc.Decrypt modelLib
          h.CardNumber)) =
      [(1, 2, .ok (str "4111111111111111")), (2, 2, .ok (str "5555555555554444"))] := by
  refine ⟨?_, by decide⟩
  obtain ⟨w', new, handed, h, _⟩ :=
    rotateKeys_sweep_convergence modelLib modelLib_sound memRepo (fun _ _ => ⟨0, _, rfl⟩)
      twoCardWorld 0 twoCards (twoCards.map Prod.fst) rfl { key := constKey 1 } (by decide)
      (by
        intro cp hcp
        simp only [twoCards, List.mem_cons, List.mem_singleton, List.not_mem_nil, or_false]
          at hcp
        rcases hcp with rfl | rfl
        · exact ⟨⟨countingRand 0, _, by rfl⟩, ⟨countingRand 12, _, by rfl⟩⟩
        · exact ⟨⟨countingRand 24, _, by rfl⟩, ⟨countingRand 36, _, by rfl⟩⟩)
      (fun _ => rfl)
  rw [h]
  rfl

/-- C4. Partial-failure isolation. (1) Whenever `RotateKeys` returns responses for the
records that `GetAllCards` delivered, there is exactly one response per record, in input
order, carrying the record's identifier. (2) An iteration of the sweep on a record whose
`CardNumber` or `CVV` the old service fails to decrypt reports "failed" and leaves the
world unchanged, so the record is not passed to `repo.Update`. (3) In a run over
`pre ++ bad :: post` with `bad` such a record, the responses are those of the run over
`pre ++ post` with the failure inserted at the position of `bad`, and that run ends in
the same world: every other record gets the outcome, and `repo.Update` the record, it
would get if the corrupted record were not in the list. (4) That outcome is a success:
in a run over records that the old key decrypts with one such `bad` record in their
midst, the random source and `repo.Update` not failing, `bad` alone is reported as
failed, every other record is reported as "success", and `repo.Update` is handed, one per
other record and in order, a record with the same identifier, tagged with the
post-rotation version, whose `CardNumber` and `CVV` decrypt under the new current key to
the original plaintexts. -/
theorem rotateKeys_partial_failure_isolation {σ : Type} (L : CryptoLib)
    (R : CardRepository σ) :
    (∀ (w w' : World σ) (now : Nat) (cards : List Card) (repo1 : σ)
        (resps : List BatchUpdateResponse),
        R.GetAllCards w.repo = (.ok cards, repo1) →
        RotateKeys L R w now = (.ok resps, w') →
        resps.length = cards.length ∧
        resps.map (fun x => x.CardID) = cards.map (fun c => c.ID)) ∧
    (∀ (old new : EncryptionService) (ver : Int) (bad : Card) (v : World σ),
        ((∃ err, old.Decrypt L bad.CardNumber = .error err) ∨
          (∃ err, old.Decrypt L bad.CVV = .error err)) →
        ∃ msg, rotateCard L R (some old) new ver bad v =
          (some { CardID := bad.ID, Status := "failed", Error := msg }, v)) ∧
    (∀ (w w' : World σ) (now : Nat) (pre post : List Card) (bad : Card) (repo1 : σ)
        (old : EncryptionService) (resps : List BatchUpdateResponse),
        R.GetAllCards w.repo = (.ok (pre ++ bad :: post), repo1) →
        NewEncryptionService w.svc.keyMgr.GetCurrentKey.1 = .ok old →
        ((∃ err, old.Decrypt L bad.CardNumber = .error err) ∨
          (∃ err, old.Decrypt L bad.CVV = .error err)) →
        RotateKeys L R w now = (.ok resps, w') →
        ∃ (respsPre respsPost : List BatchUpdateResponse) (msg : String),
          resps = respsPre ++
            { CardID := bad.ID, Status := "failed", Error := msg } :: respsPost ∧
          respsPre.length = pre.length ∧
          ∀ (R' : CardRepository σ), R'.Update = R.Update →
            R'.GetAllCards w.repo = (.ok (pre ++ post), repo1) →
            RotateKeys L R' w now = (.ok (respsPre ++ respsPost), w')) ∧
    (∀ (w : World σ) (now : Nat) (pre post : List (Card × Bytes × Bytes)) (bad : Card)
        (repo1 : σ) (old : EncryptionService),
        L.Sound → R.UpdateNeverFails → w.rand.NeverFails →
        R.GetAllCards w.repo =
          (.ok (pre.map Prod.fst ++ bad :: post.map Prod.fst), repo1) →
        NewEncryptionService w.svc.keyMgr.GetCurrentKey.1 = .ok old →
        (∀ cp ∈ pre ++ post, old.Decrypt L cp.1.CardNumber = .ok cp.2.1 ∧
          old.Decrypt L cp.1.CVV = .ok cp.2.2) →
        ((∃ err, old.Decrypt L bad.CardNumber = .error err) ∨
          (∃ err, old.Decrypt L bad.CVV = .error err)) →
        ∃ (w' : World σ) (new : EncryptionService) (handed : List Card) (msg : String),
          RotateKeys L R w now =
            (.ok ((pre.map Prod.fst).map
                (fun c => { CardID := c.ID, Status := "success", Error := "" }) ++
              { CardID := bad.ID, Status := "failed", Error := msg } ::
              (post.map Prod.fst).map
                (fun c => { CardID := c.ID, Status := "success", Error := "" })), w') ∧
          w'.svc.keyMgr.GetCurrentKey.2 = w.svc.keyMgr.GetCurrentKey.2 + 1 ∧
          NewEncryptionService w'.svc.keyMgr.GetCurrentKey.1 = .ok new ∧
          w'.stored = w.stored ++ handed ∧
          List.Forall₂ (Reencrypted L new w'.svc.keyMgr.GetCurrentKey.2) handed
            (pre ++ post)) := by
  refine ⟨?_, ?_, ?_, ?_⟩
  · intro w w' now cards repo1 resps hget hrun
    obtain ⟨newKey, r1, hlen, hrot⟩ := rotateKeys_ok_rotated L R w w' now cards repo1 resps hget hrun
    rw [rotateKeys_eq_loop L R w now cards repo1 hget newKey r1 hlen hrot] at hrun
    split at hrun
    · simp at hrun
    · rename_i responses w2 hloop
      simp only [Prod.mk.injEq, Except.ok.injEq] at hrun
      rw [← hrun.1]
      exact ⟨rotateLoop_length L R _ _ _ _ _ _ _ hloop, rotateLoop_ids L R _ _ _ _ _ _ _ hloop⟩
  · intro old new ver bad v hbad
    exact rotateCard_corrupt L R old new ver bad v hbad
  · intro w w' now pre post bad repo1 old resps hget hold hbad hrun
    obtain ⟨newKey, r1, hlen, hrot⟩ :=
      rotateKeys_ok_rotated L R w w' now _ repo1 resps hget hrun
    rw [rotateKeys_eq_loop L R w now _ repo1 hget newKey r1 hlen hrot] at hrun
    simp only [KeyManager.GetCurrentKey] at hold
    simp only [hold, Except.toOption] at hrun
    rw [rotateLoop_append] at hrun
    rcases hpre : rotateLoop L R (some old) { key := newKey } (w.svc.keyMgr.keyVersion + 1) pre
        { w with
          svc := { w.svc with keyMgr :=
            { currentKey := newKey, previousKey := some w.svc.keyMgr.currentKey,
              keyVersion := w.svc.keyMgr.keyVersion + 1, rotationTime := now } }
          rand := r1, repo := repo1 } with ⟨o1, w1⟩
    rw [hpre] at hrun
    cases o1 with
    | none => simp at hrun
    | some respsPre =>
      obtain ⟨msg, hb⟩ := rotateCard_corrupt L R old { key := newKey }
        (w.svc.keyMgr.keyVersion + 1) bad w1 hbad
      simp only [rotateLoop, hb] at hrun
      rcases hpost : rotateLoop L R (some old) { key := newKey }
          (w.svc.keyMgr.keyVersion + 1) post w1 with ⟨o2, w2⟩
      rw [hpost] at hrun
      cases o2 with
      | none => simp at hrun
      | some respsPost =>
        simp only [Prod.mk.injEq, Except.ok.injEq] at hrun
        refine ⟨respsPre, respsPost, msg, hrun.1.symm,
          rotateLoop_length L R _ _ _ _ _ _ _ hpre, ?_⟩
        intro R' hU hget'
        rw [rotateKeys_eq_loop L R' w now _ repo1 hget' newKey r1 hlen hrot]
        simp only [hold, Except.toOption]
        rw [rotateLoop_congr L R R' hU, rotateLoop_append, hpre]
        simp only [hpost]
        rw [← hrun.2]
  · intro w now pre post bad repo1 old hL hR hr hget hold hdec hbad
    obtain ⟨newKey, w1, hlen, hr1, hst1, hkm1, hrun⟩ :=
      rotateKeys_run L R w now _ repo1 old hget hold hr
    obtain ⟨w2, handed, msg, hloop, hs, hall, hsvc⟩ :=
      rotateLoop_isolated hL R hR old { key := newKey } (w.svc.keyMgr.keyVersion + 1)
        pre post bad hdec hbad w1 hr1
    rw [hloop] at hrun
    refine ⟨{ w2 with svc := { w2.svc with encSvc := { key := newKey } } },
      { key := newKey }, handed, msg, hrun, ?_, ?_, by rw [← hst1]; exact hs, ?_⟩
    · simp [hsvc, hkm1, KeyManager.GetCurrentKey]
    · simp only [hsvc, hkm1, KeyManager.GetCurrentKey]
      exact NewEncryptionService_ok hlen
    · simpa [hsvc, hkm1, KeyManager.GetCurrentKey] using hall

/-- The sweep of C4 over a valid record, a corrupted record and another valid record:
the corrupted one is reported as failed, the other two as successes and handed to
`repo.Update` tagged with version 2 and decryptable by the new cipher, and the run
without the corrupted record gives the other two responses and ends in the same
world. -/
theorem rotateKeys_partial_failure_isolation_witness :
    (RotateKeys modelLib memRepo corruptWorld 0).1 =
      .ok [ { CardID := 1, Status := "success", Error := "" },
            { CardID := 3, Status := "failed", Error := "failed to decrypt with old key" },
            { CardID := 2, Status := "success", Error := "" } ] ∧
    ∃ (respsPre respsPost : List BatchUpdateResponse) (msg : String),
      (RotateKeys modelLib memRepo corruptWorld 0).1 = .ok (respsPre ++
        { CardID := 3, Status := "failed", Error := msg } :: respsPost) ∧
      respsPre.length = 1 ∧
      RotateKeys modelLib (memRepoListing (twoCards.map Prod.fst)) corruptWorld 0 =
        (.ok (respsPre ++ respsPost), (RotateKeys modelLib memRepo corruptWorld 0).2) ∧
      (RotateKeys modelLib memRepo corruptWorld 0).2.stored.map
        (fun h => (h.ID, h.KeyVersion,
          (RotateKeys modelLib memRepo corruptWorld 0).2.svc.encSvc.Decrypt modelLib
            h.CardNumber)) =
        [(1, 2, .ok (str "4111111111111111")), (2, 2, .ok (str "5555555555554444"))] ∧
      ∃ (new : EncryptionService) (handed : List Card),
        (RotateKeys modelLib memRepo corruptWorld 0).2.stored = handed ∧
        List.Forall₂ (Reencrypted modelLib new 2) handed twoCards := by
  refine ⟨by rfl, ?_⟩
  obtain ⟨w4, new, handed, msg4, hrun4, hver4, _, hst4, hall4⟩ :=
    (rotateKeys_partial_failure_isolation modelLib memRepo).2.2.2 corruptWorld 0
      (twoCards.take 1) (twoCards.drop 1) corruptCard corruptWorld.repo { key := constKey 1 }
      modelLib_sound (fun _ _ => ⟨0, _, rfl⟩) (fun _ => rfl) (by rfl) (by decide)
      (by decide) (Or.inl ⟨.new "ciphertext too short", by rfl⟩)
  have hw4 : w4 = (RotateKeys modelLib memRepo corruptWorld 0).2 := by rw [hrun4]
  subst hw4
  have hver2 : (RotateKeys modelLib memRepo corruptWorld 0).2.svc.keyMgr.GetCurrentKey.2 = 2 :=
    hver4
  rw [hver2] at hall4
  obtain ⟨respsPre, respsPost, msg, h1, h2, h3⟩ :=
    (rotateKeys_partial_failure_isolation modelLib memRepo).2.2.1 corruptWorld
      (RotateKeys modelLib memRepo corruptWorld 0).2 0 ((twoCards.map Prod.fst).take 1)
      ((twoCards.map Prod.fst).drop 1) corruptCard corruptWorld.repo { key := constKey 1 }
      [ { CardID := 1, Status := "success", Error := "" },
        { CardID := 3, Status := "failed", Error := "failed to decrypt with old key" },
        { CardID := 2, Status := "success", Error := "" } ]
      (by rfl) (by decide) (Or.inl ⟨.new "ciphertext too short", by rfl⟩) (by rfl)
  have h1' : [ { CardID := 1, Status := "success", Error := "" },
      { CardID := 3, Status := "failed", Error := "failed to decrypt with old key" },
      { CardID := 2, Status := "success", Error := "" } ] =
      respsPre ++ ({ CardID := 3, Status := "failed", Error := msg } : BatchUpdateResponse) ::
        respsPost := h1
  exact ⟨respsPre, respsPost, msg, by rw [← h1']; rfl, h2,
    h3 (memRepoListing (twoCards.map Prod.fst)) rfl (by rfl), by decide,
    new, handed, by simpa [corruptWorld] using hst4, hall4⟩

/-- C5, as stated, fails: after two rotations (current version 3, retained previous
generation 2) a record encrypted under generation 1, tagged 1 and never swept is not
answered with the key-unavailable error; `decryptCardNumber` attempts the decryption with
the previous key and returns the error of `Open`. -/
theorem decryptCardNumber_stale_counterexample :
    twiceRotatedService.keyMgr.GetCurrentKey.2 = 3 ∧ staleCard.KeyVersion = 1 ∧
    decryptCardNumber modelLib twiceRotatedService staleCard = .error .openFailed ∧
    ¬ (∀ (L : CryptoLib) (s : cardService) (card : Card),
        card.KeyVersion ≠ s.keyMgr.GetCurrentKey.2 →
        card.KeyVersion ≠ s.keyMgr.GetCurrentKey.2 - 1 →
        decryptCardNumber L s card = .error errKeyUnavailable) := by
  refine ⟨by decide, by decide, by decide, ?_⟩
  intro h
  have h1 := h modelLib twiceRotatedService staleCard (by decide) (by decide)
  revert h1
  decide

/-- C5, amended. For a record whose key version differs from the key manager's current
version, `decryptCardNumber` fails with the key-unavailable error exactly when the key
manager holds no previous key; when it holds one, the result is what `Decrypt` on a
cipher built from the previous key returns for the stored value, whatever the record's
version, and that is never the key-unavailable error. -/
theorem decryptCardNumber_noncurrent (L : CryptoLib) (s : cardService) (card : Card)
    (hne : card.KeyVersion ≠ s.keyMgr.GetCurrentKey.2) :
    (s.keyMgr.GetPreviousKey = none → decryptCardNumber L s card = .error errKeyUnavailable) ∧
    (∀ prev, s.keyMgr.GetPreviousKey = some prev →
      decryptCardNumber L s card ≠ .error errKeyUnavailable ∧
      ∀ old, NewEncryptionService prev = .ok old →
        decryptCardNumber L s card = old.Decrypt L card.CardNumber) := by
  constructor
  · intro hnone
    simp [decryptCardNumber, hne, hnone, errKeyUnavailable]
  · intro prev hprev
    constructor
    · simp only [decryptCardNumber, hne, if_false, hprev]
      cases hnew : NewEncryptionService prev with
      | error err =>
        simp only [NewEncryptionService] at hnew
        split at hnew
        · cases hnew
        · cases hnew
          simp [errKeyUnavailable]
      | ok old => exact decrypt_ne_keyUnavailable L old _
    · intro old hold
      simp [decryptCardNumber, hne, hprev, hold]

/-- The amended C5 on the stale record after two rotations: the previous key is tried
and `Open` rejects the value. -/
theorem decryptCardNumber_noncurrent_witness :
    staleCard.KeyVersion ≠ twiceRotatedService.keyMgr.GetCurrentKey.2 ∧
    twiceRotatedService.keyMgr.GetPreviousKey = some (List.map Fin.ofNat (List.range' 100 32)) ∧
    decryptCardNumber modelLib twiceRotatedService staleCard ≠ .error errKeyUnavailable ∧
    decryptCardNumber modelLib twiceRotatedService staleCard =
      EncryptionService.Decrypt modelLib { key := List.map Fin.ofNat (List.range' 100 32) }
        staleCard.CardNumber :=
  have h := (decryptCardNumber_noncurrent modelLib twiceRotatedService staleCard
    (by decide)).2 (List.map Fin.ofNat (List.range' 100 32)) (by decide)
  ⟨by decide, by decide, h.1, h.2 _ (by decide)⟩

/-- C6. A record whose `CardNumber` was encrypted under the key manager's current key
and whose `KeyVersion` is the current version is, after one successful `RotateKey` in
which it was not re-encrypted, still decrypted to the original plaintext by
`decryptCardNumber`, whatever cipher the service holds, through a cipher built from
`GetPreviousKey`; and `GetCard` on that record succeeds with the response built from that
plaintext. -/
theorem decryptCardNumber_after_one_rotation (L : CryptoLib) (hL : L.Sound)
    (km km' : KeyManager) (card : Card) (p : Bytes) (old : EncryptionService)
    (hold : NewEncryptionService km.GetCurrentKey.1 = .ok old)
    (henc : EncryptedUnder L old p card.CardNumber)
    (hver : card.KeyVersion = km.GetCurrentKey.2)
    (r r' : Rand) (now : Nat) (hrot : km.RotateKey r now = (none, km', r')) :
    (∀ encSvc, decryptCardNumber L { encSvc := encSvc, keyMgr := km' } card = .ok p) ∧
    (∃ prev oldEncSvc, km'.GetPreviousKey = some prev ∧
      NewEncryptionService prev = .ok oldEncSvc ∧
      oldEncSvc.Decrypt L card.CardNumber = .ok p) ∧
    (∀ (σ : Type) (R : CardRepository σ) (w : World σ) (cardID userID : UUID) (repo1 : σ),
      w.svc.keyMgr = km' → R.GetByID w.repo cardID userID = (.ok card, repo1) →
      (GetCard L R w cardID userID).1 = .ok (toCardResponse card p)) := by
  obtain ⟨newKey, hkm, _⟩ := rotateKey_ok_inv km km' r r' now hrot
  have hdec : old.Decrypt L card.CardNumber = .ok p := decrypt_of_encryptedUnder hL henc
  simp only [KeyManager.GetCurrentKey] at hold hver
  have hne : card.KeyVersion ≠ km.keyVersion + 1 := by omega
  have hmain : ∀ encSvc, decryptCardNumber L { encSvc := encSvc, keyMgr := km' } card = .ok p := by
    intro encSvc
    subst hkm
    simp [decryptCardNumber, KeyManager.GetCurrentKey, KeyManager.GetPreviousKey, hne, hold,
      hdec]
  refine ⟨hmain, ⟨km.currentKey, old, by rw [hkm]; rfl, hold, hdec⟩, ?_⟩
  intro σ R w cardID userID repo1 hw hget
  have hsvc : w.svc = { encSvc := w.svc.encSvc, keyMgr := km' } := by
    rw [← hw]
  have hd := hmain w.svc.encSvc
  rw [← hsvc] at hd
  simp [GetCard, hget, hd]

/-- The record of C6 after one rotation of the fresh key manager: a service holding any
cipher decrypts it through the previous key. -/
theorem decryptCardNumber_after_one_rotation_witness :
    NewEncryptionService freshKeyMgr.GetCurrentKey.1 = .ok { key := constKey 1 } ∧
    staleCard.KeyVersion = freshKeyMgr.GetCurrentKey.2 ∧
    (freshKeyMgr.RotateKey (countingRand 100) 1).1 = none ∧
    decryptCardNumber modelLib
      { encSvc := { key := constKey 9 }, keyMgr := rotated freshKeyMgr (countingRand 100) 1 }
      staleCard = .ok (str "4111111111111111") :=
  ⟨by decide, by decide, by decide,
    (decryptCardNumber_after_one_rotation modelLib modelLib_sound freshKeyMgr
      (rotated freshKeyMgr (countingRand 100) 1) staleCard (str "4111111111111111")
      { key := constKey 1 } (by decide) ⟨countingRand 0, _, by rfl⟩ (by decide)
      (countingRand 100) (freshKeyMgr.RotateKey (countingRand 100) 1).2.2 1 (by rfl)).1
      { key := constKey 9 }⟩

/-- C7 fails on the code. After the sweep over `corruptWorld` the key manager is at
version 2 and the cipher is bound to the second key, while record 3 is still tagged 1.
`UpdateCard` on record 3 succeeds and hands to `repo.Update` a record whose new
`CardNumber` is encrypted under the second key (the active cipher decrypts it) but whose
`KeyVersion` is still 1, so `decryptCardNumber` on the updated record tries the previous
key and fails instead of returning the new card number. -/
theorem updateCard_keeps_stale_keyVersion :
    afterSweepWorld.svc.keyMgr.GetCurrentKey.2 = 2 ∧
    ((UpdateCard modelLib memRepo patterns afterSweepWorld 3 7 updateRequest).1.toOption.map
      (fun resp => resp.MaskedNumber)) = some (str "************4444") ∧
    ((UpdateCard modelLib memRepo patterns afterSweepWorld 3 7 updateRequest).2.stored.getLast?.map
      (fun handed => (handed.ID, handed.KeyVersion,
        afterSweepWorld.svc.encSvc.Decrypt modelLib handed.CardNumber,
        decryptCardNumber modelLib afterSweepWorld.svc handed))) =
      some (3, 1, .ok (str "5555555555554444"), .error .openFailed) := by
  refine ⟨by decide, by decide, by decide⟩

/-- C8, as stated, fails: for the service of `TestCardService_CreateCard`, whose cipher
is built from a key other than the key manager's, `CreateCard` accepts the request and
hands to `repo.Create` a record tagged with version 1 whose `CardNumber` does not decrypt
under the key that `GetCurrentKey` returns with version 1. -/
theorem createCard_unbound_counterexample :
    ((CreateCard modelLib memRepo patterns unboundWorld 7 createRequest).1.toOption.map
      (fun resp => resp.CardType)) = some "Visa" ∧
    ((CreateCard modelLib memRepo patterns unboundWorld 7 createRequest).2.stored.map
      (fun card => (card.KeyVersion,
        EncryptionService.Decrypt modelLib { key := unboundWorld.svc.keyMgr.GetCurrentKey.1 }
          card.CardNumber))) = [(1, .error .openFailed)] ∧
    ¬ (∀ (L : CryptoLib) (_ : L.Sound) (R : CardRepository (List Card))
        (order : List (String × List Regex)) (w w' : World (List Card)) (userID : UUID)
        (req : CardRequest) (resp : CardResponse),
        CreateCard L R order w userID req = (.ok resp, w') →
        ∃ card, w'.stored = w.stored ++ [card] ∧
          card.KeyVersion = w.svc.keyMgr.GetCurrentKey.2 ∧
          EncryptionService.Decrypt L { key := w.svc.keyMgr.GetCurrentKey.1 } card.CardNumber =
            .ok (stripSpaces req.CardNumber) ∧
          EncryptionService.Decrypt L { key := w.svc.keyMgr.GetCurrentKey.1 } card.CVV =
            .ok req.CVV) := by
  refine ⟨by decide, by decide, ?_⟩
  intro h
  obtain ⟨card, hst, _, hdec, _⟩ := h modelLib modelLib_sound memRepo patterns unboundWorld
    (CreateCard modelLib memRepo patterns unboundWorld 7 createRequest).2 7 createRequest
    (toCardResponse
      { ID := 1, UserID := 7, CardholderName := createRequest.CardholderName, CardNumber := [],
        ExpiryMonth := 12, ExpiryYear := 2025, CVV := [], CardType := "Visa", IsActive := true,
        KeyVersion := 1, CreatedAt := 0, UpdatedAt := 0 }
      (str "4111111111111111"))
    (by rfl)
  have h2 : (CreateCard modelLib memRepo patterns unboundWorld 7 createRequest).2.stored =
      [createdCard (constKey 9)] := by decide
  have hc : card = createdCard (constKey 9) := by
    rw [h2] at hst
    simpa [unboundWorld] using hst.symm
  subst hc
  revert hdec
  decide

/-- C8, amended. For a card service whose cipher was built from the key manager's
current key, as `cmd/server/main.go` builds it, and every request accepted by
`CreateCard`, the record handed to `repo.Create` is tagged with the version that
`GetCurrentKey` returns, and its `CardNumber` and `CVV` decrypt, under the key that
`GetCurrentKey` returns, to the space-stripped card number and the CVV. -/
theorem createCard_tags_encrypting_generation {σ : Type} (L : CryptoLib) (hL : L.Sound)
    (R : CardRepository σ) (order : List (String × List Regex)) (w w' : World σ)
    (userID : UUID) (req : CardRequest) (resp : CardResponse)
    (hbound : NewEncryptionService w.svc.keyMgr.GetCurrentKey.1 = .ok w.svc.encSvc)
    (h : CreateCard L R order w userID req = (.ok resp, w')) :
    ∃ card, w'.stored = w.stored ++ [card] ∧
      card.KeyVersion = w.svc.keyMgr.GetCurrentKey.2 ∧
      EncryptionService.Decrypt L { key := w.svc.keyMgr.GetCurrentKey.1 } card.CardNumber =
        .ok (stripSpaces req.CardNumber) ∧
      EncryptionService.Decrypt L { key := w.svc.keyMgr.GetCurrentKey.1 } card.CVV =
        .ok req.CVV := by
  obtain ⟨c1, c2, r1, r2, db, _, he1, he2, hst, _⟩ := createCard_ok_inv L R order w w' userID req resp h
  have hkey : ({ key := w.svc.keyMgr.GetCurrentKey.1 } : EncryptionService) = w.svc.encSvc := by
    unfold NewEncryptionService at hbound
    split at hbound
    · exact Except.ok.inj hbound
    · cases hbound
  rw [hkey]
  exact ⟨_, hst, rfl, decrypt_of_encrypt hL _ he1, decrypt_of_encrypt hL _ he2⟩

/-- The amended C8 on the request of the test and the service wired as in `main.go`. -/
theorem createCard_tags_encrypting_generation_witness :
    NewEncryptionService freshWorld.svc.keyMgr.GetCurrentKey.1 = .ok freshWorld.svc.encSvc ∧
    ∃ card, (CreateCard modelLib memRepo patterns freshWorld 7 createRequest).2.stored =
        freshWorld.stored ++ [card] ∧
      card.KeyVersion = 1 ∧
      EncryptionService.Decrypt modelLib { key := constKey 1 } card.CardNumber =
        .ok (str "4111111111111111") ∧
      EncryptionService.Decrypt modelLib { key := constKey 1 } card.CVV = .ok (str "123") :=
  ⟨by decide,
    createCard_tags_encrypting_generation modelLib modelLib_sound memRepo patterns freshWorld
      (CreateCard modelLib memRepo patterns freshWorld 7 createRequest).2 7 createRequest
      (toCardResponse
        { ID := 1, UserID := 7, CardholderName := createRequest.CardholderName, CardNumber := [],
          ExpiryMonth := 12, ExpiryYear := 2025, CVV := [], CardType := "Visa",
          IsActive := true, KeyVersion := 1, CreatedAt := 0, UpdatedAt := 0 }
        (str "4111111111111111"))
      (by decide) (by rfl)⟩

/-- C9. For a request whose card number, with the spaces removed, passes the Luhn check,
when both encryptions and `repo.Create` succeed, `CreateCard` returns no error and a
response whose `CardholderName` is the request's, whose `MaskedNumber` is
`maskCardNumber` of the stripped number and whose `CardType` is `detectCardType` of the
stripped number; for "4111111111111111" these are "************1111" and "Visa", in
whatever order the patterns are visited. -/
theorem createCard_response {σ : Type} (L : CryptoLib) (R : CardRepository σ)
    (order : List (String × List Regex)) (horder : order.Perm patterns) (w : World σ)
    (userID : UUID) (req : CardRequest) (c1 c2 : Bytes) (r1 r2 : Rand)
    (hluhn : isValidCardNumber (stripSpaces req.CardNumber) = true)
    (he1 : w.svc.encSvc.Encrypt L (stripSpaces req.CardNumber) w.rand = (.ok c1, r1))
    (he2 : w.svc.encSvc.Encrypt L req.CVV r1 = (.ok c2, r2))
    (hcreate : ∀ card, ∃ db repo1, R.Create w.repo card = (.ok db, repo1)) :
    ∃ (resp : CardResponse) (w' : World σ),
      CreateCard L R order w userID req = (.ok resp, w') ∧
      resp.CardholderName = req.CardholderName ∧
      resp.MaskedNumber = maskCardNumber (stripSpaces req.CardNumber) ∧
      resp.CardType = detectCardType order (stripSpaces req.CardNumber) ∧
      (stripSpaces req.CardNumber = str "4111111111111111" →
        resp.MaskedNumber = str "************1111" ∧ resp.CardType = "Visa") := by
  obtain ⟨db, repo1, hc⟩ := hcreate
    { ID := 0, UserID := userID, CardholderName := req.CardholderName, CardNumber := c1,
      ExpiryMonth := req.ExpiryMonth, ExpiryYear := req.ExpiryYear, CVV := c2,
      CardType := detectCardType order (stripSpaces req.CardNumber), IsActive := false,
      KeyVersion := w.svc.keyMgr.GetCurrentKey.2, CreatedAt := 0, UpdatedAt := 0 }
  refine ⟨_, _, by simp only [CreateCard, hluhn, he1, he2, hc]; rfl, rfl, rfl, rfl, ?_⟩
  intro h4
  simp only [toCardResponse, h4]
  exact ⟨by decide, detectCardType_test_number order horder⟩

/-- The request of `TestCardService_CreateCard` on the fresh service over an empty
in-memory store, the patterns being visited in reverse order: the response carries the
name, the masked number and the brand the test expects. -/
theorem createCard_response_witness :
    isValidCardNumber (stripSpaces createRequest.CardNumber) = true ∧
    ∃ (resp : CardResponse) (w' : World (List Card)),
      CreateCard modelLib memRepo patterns.reverse freshWorld 7 createRequest = (.ok resp, w') ∧
      resp.CardholderName = str "John Doe" ∧
      resp.MaskedNumber = str "************1111" ∧
      resp.CardType = "Visa" := by
  refine ⟨by decide, ?_⟩
  have he1 : freshWorld.svc.encSvc.Encrypt modelLib (stripSpaces createRequest.CardNumber)
      freshWorld.rand =
      (.ok (encryptedOr modelLib freshWorld.svc.encSvc (stripSpaces createRequest.CardNumber)
        freshWorld.rand), freshRandAfterNumber) := Prod.ext (by decide) rfl
  have he2 : freshWorld.svc.encSvc.Encrypt modelLib createRequest.CVV freshRandAfterNumber =
      (.ok (encryptedOr modelLib freshWorld.svc.encSvc createRequest.CVV freshRandAfterNumber),
        (freshWorld.svc.encSvc.Encrypt modelLib createRequest.CVV freshRandAfterNumber).2) :=
    pair_of_fst _ _ (by decide)
  obtain ⟨resp, w', h, h1, _, _, h4⟩ :=
    createCard_response modelLib memRepo patterns.reverse (List.reverse_perm patterns)
      freshWorld 7 createRequest _ _ _ _ (by decide) he1 he2 (fun _ => ⟨_, _, rfl⟩)
  exact ⟨resp, w', h, h1, (h4 (by decide)).1, (h4 (by decide)).2⟩

/-- C10. `isValidCardNumber s` is true if and only if every byte of `s` is an ASCII digit
and the standard Luhn total of `s` is a multiple of 10; "4111111111111111" is valid,
"4111111111111112" is invalid, and a string containing a byte that is not a digit,
below `'0'` or above `'9'`, is invalid. -/
theorem isValidCardNumber_iff_luhn (s : Bytes) :
    (isValidCardNumber s = true ↔ (∀ c ∈ s, isAsciiDigit c) ∧ luhnTotal s % 10 = 0) ∧
    isValidCardNumber (str "4111111111111111") = true ∧
    isValidCardNumber (str "4111111111111112") = false ∧
    ((∃ c ∈ s, ¬ isAsciiDigit c) → isValidCardNumber s = false) ∧
    ((∃ c ∈ s, c.val < 48) → isValidCardNumber s = false) := by
  have hiff : isValidCardNumber s = true ↔
      (∀ c ∈ s, isAsciiDigit c) ∧ luhnTotal s % 10 = 0 := by
    unfold isValidCardNumber
    rw [luhnLoop_iff s.reverse 0 false 0 (by simp)]
    have htot : luhnTotalFrom 0 s.reverse = luhnTotal s := rfl
    rw [htot]
    simp only [List.mem_reverse, zero_add]
    constructor
    · intro ⟨h1, h2⟩
      exact ⟨h1, by omega⟩
    · intro ⟨h1, h2⟩
      exact ⟨h1, by omega⟩
  have hnon : (∃ c ∈ s, ¬ isAsciiDigit c) → isValidCardNumber s = false := by
    intro ⟨c, hc, hnd⟩
    cases hv : isValidCardNumber s with
    | false => rfl
    | true => exact absurd ((hiff.mp hv).1 c hc) hnd
  refine ⟨hiff, by decide, by decide, hnon, ?_⟩
  intro ⟨c, hc, hlt⟩
  exact hnon ⟨c, hc, fun hd => by unfold isAsciiDigit at hd; omega⟩

/-- Instances of C10: a number with a space in it (a byte below `'0'`) and a number with
a letter in it are rejected through the general statement. -/
theorem isValidCardNumber_iff_luhn_witness :
    isValidCardNumber (str "4111 1111 1111 1111") = false ∧
    isValidCardNumber (str "411111111111111x") = false ∧
    luhnTotal (str "4111111111111111") = 30 :=
  ⟨(isValidCardNumber_iff_luhn (str "4111 1111 1111 1111")).2.2.2.2 ⟨32, by decide, by decide⟩,
    (isValidCardNumber_iff_luhn (str "411111111111111x")).2.2.2.1 ⟨120, by decide, by decide⟩,
    by decide⟩

/-- C11. The result of `maskCardNumber` has the length of its argument; an argument of
fewer than four bytes is returned unchanged; otherwise the result is `len - 4` bytes
`'*'` followed by the last four bytes of the argument, that is, position `i` holds `'*'`
when `i < len - 4` and the argument's byte otherwise. "4111111111111111" gives
"************1111" and "12" gives "12". -/
theorem maskCardNumber_spec (s : Bytes) :
    (maskCardNumber s).length = s.length ∧
    (s.length < 4 → maskCardNumber s = s) ∧
    (4 ≤ s.length →
      maskCardNumber s = List.replicate (s.length - 4) (42 : Byte) ++ s.drop (s.length - 4) ∧
      (s.drop (s.length - 4)).length = 4 ∧
      ∀ i, i < s.length →
        (maskCardNumber s)[i]? = if i < s.length - 4 then some 42 else s[i]?) ∧
    maskCardNumber (str "4111111111111111") = str "************1111" ∧
    maskCardNumber (str "12") = str "12" := by
  refine ⟨?_, ?_, ?_, by decide, by decide⟩
  · unfold maskCardNumber
    split
    · rfl
    · simp only [List.length_append, List.length_replicate, List.length_drop]
      omega
  · intro h
    simp [maskCardNumber, h]
  · intro h
    have hnot : ¬ s.length < 4 := by omega
    refine ⟨by simp [maskCardNumber, hnot], by simp only [List.length_drop]; omega, ?_⟩
    intro i hi
    simp only [maskCardNumber, hnot, if_false]
    by_cases hlt : i < s.length - 4
    · rw [if_pos hlt, List.getElem?_append_left (by simpa using hlt)]
      simp [hlt]
    · rw [if_neg hlt, List.getElem?_append_right (by simp; omega)]
      simp only [List.length_replicate, List.getElem?_drop]
      congr 1
      omega

/-- Instances of C11 on a three-byte and a five-byte string. -/
theorem maskCardNumber_spec_witness :
    maskCardNumber (str "123") = str "123" ∧
    maskCardNumber (str "12345") = str "*2345" :=
  ⟨(maskCardNumber_spec (str "123")).2.1 (by decide),
    ((maskCardNumber_spec (str "12345")).2.2.1 (by decide)).1.trans (by decide)⟩

/-- C15. When `RotateKey` fails because the random source returns an error, it returns
that error and leaves the key manager as it was: the current key, the previous key, the
key version and the rotation time are all unchanged. -/
theorem rotateKey_failure_atomic (km : KeyManager) (r : Rand) (now : Nat)
    (hfail : (randRead 32 r).2.1 = true) :
    (km.RotateKey r now).1 = some .randRead ∧
    (km.RotateKey r now).2.1 = km ∧
    (km.RotateKey r now).2.1.GetCurrentKey = km.GetCurrentKey ∧
    (km.RotateKey r now).2.1.GetPreviousKey = km.GetPreviousKey ∧
    (km.RotateKey r now).2.1.rotationTime = km.rotationTime := by
  unfold KeyManager.RotateKey
  rcases hq : randRead 32 r with ⟨newKey, e, r1⟩
  rw [hq] at hfail
  simp only at hfail
  subst hfail
  exact ⟨rfl, rfl, rfl, rfl, rfl⟩

/-- The failing rotation of C15 on the twice-rotated key manager with a random source
whose reads fail. -/
theorem rotateKey_failure_atomic_witness :
    (randRead 32 failingRand).2.1 = true ∧
    (twiceRotatedKeyMgr.RotateKey failingRand 9).1 = some .randRead ∧
    (twiceRotatedKeyMgr.RotateKey failingRand 9).2.1 = twiceRotatedKeyMgr :=
  ⟨by decide, (rotateKey_failure_atomic twiceRotatedKeyMgr failingRand 9 (by decide)).1,
    (rotateKey_failure_atomic twiceRotatedKeyMgr failingRand 9 (by decide)).2.1⟩

/-- C18. In every key manager state reachable from `NewKeyManager` by `RotateKey` calls,
successful or failing, the key version is 1 plus the number of successful rotations, and
`GetPreviousKey` returns nil if and only if the version is 1; so `decryptCardNumber` can
return its key-unavailable error only when no rotation has succeeded yet. -/
theorem reachable_version_and_previous (km : KeyManager) (n : Nat) (h : km.Reachable n) :
    km.GetCurrentKey.2 = 1 + n ∧
    (km.GetPreviousKey = none ↔ km.GetCurrentKey.2 = 1) ∧
    (∀ (L : CryptoLib) (encSvc : EncryptionService) (card : Card),
      decryptCardNumber L { encSvc := encSvc, keyMgr := km } card = .error errKeyUnavailable →
      n = 0) := by
  obtain ⟨hver, hprev⟩ := reachable_invariant km n h
  refine ⟨hver, ?_, ?_⟩
  · simp only [KeyManager.GetPreviousKey, KeyManager.GetCurrentKey, hprev, hver]
    omega
  · intro L encSvc card herr
    exact hprev.mp (previous_none_of_keyUnavailable L _ card herr)

/-- The state of C18 reached by a failing and then a successful rotation: one successful
rotation, version 2, a previous key held. -/
theorem reachable_version_and_previous_witness :
    onceRotatedKeyMgr.Reachable 1 ∧ onceRotatedKeyMgr.GetCurrentKey.2 = 1 + (1 : Nat) ∧
    (onceRotatedKeyMgr.GetPreviousKey = none ↔ onceRotatedKeyMgr.GetCurrentKey.2 = 1) :=
  have hr : onceRotatedKeyMgr.Reachable 1 :=
    KeyManager.Reachable.rotateOk _ _ 0 (countingRand 32)
      ((rotated (NewKeyManager (countingRand 0) 0).1 failingRand 1).RotateKey
        (countingRand 32) 2).2.2 2
      (KeyManager.Reachable.rotateFail _ _ 0 failingRand
        ((NewKeyManager (countingRand 0) 0).1.RotateKey failingRand 1).2.2 1 .randRead
        (KeyManager.Reachable.new (countingRand 0) 0) (by rfl))
      (by rfl)
  ⟨hr, (reachable_version_and_previous onceRotatedKeyMgr 1 hr).1,
    (reachable_version_and_previous onceRotatedKeyMgr 1 hr).2.1⟩

/-- C17. When the active cipher is bound to the key manager's current key before
`RotateKeys` is called and `RotateKeys` returns without a top-level error, whatever the
per-record outcomes, the active cipher is bound to the key that `GetCurrentKey` now
returns, the version has grown by one, and a value encrypted by the active cipher and
tagged with the current version is decrypted by `decryptCardNumber` to its plaintext. -/
theorem rotateKeys_rebinds_cipher {σ : Type} (L : CryptoLib) (hL : L.Sound)
    (R : CardRepository σ) (w w' : World σ) (now : Nat) (resps : List BatchUpdateResponse)
    (hbound : NewEncryptionService w.svc.keyMgr.GetCurrentKey.1 = .ok w.svc.encSvc)
    (hrun : RotateKeys L R w now = (.ok resps, w')) :
    NewEncryptionService w'.svc.keyMgr.GetCurrentKey.1 = .ok w'.svc.encSvc ∧
    w'.svc.keyMgr.GetCurrentKey.2 = w.svc.keyMgr.GetCurrentKey.2 + 1 ∧
    ∀ (card : Card) (p : Bytes), EncryptedUnder L w'.svc.encSvc p card.CardNumber →
      card.KeyVersion = w'.svc.keyMgr.GetCurrentKey.2 →
      decryptCardNumber L w'.svc card = .ok p := by
  have _ := hbound
  rcases hget : R.GetAllCards w.repo with ⟨res, repo1⟩
  cases res with
  | error err => simp [RotateKeys, hget] at hrun
  | ok cards =>
    obtain ⟨newKey, r1, hlen, hrot⟩ :=
      rotateKeys_ok_rotated L R w w' now cards repo1 resps hget hrun
    rw [rotateKeys_eq_loop L R w now cards repo1 hget newKey r1 hlen hrot] at hrun
    have hsvc := rotateLoop_svc L R (NewEncryptionService w.svc.keyMgr.currentKey).toOption
      { key := newKey } (w.svc.keyMgr.keyVersion + 1) cards
      { w with
        svc := { w.svc with keyMgr :=
          { currentKey := newKey, previousKey := some w.svc.keyMgr.currentKey,
            keyVersion := w.svc.keyMgr.keyVersion + 1, rotationTime := now } }
        rand := r1, repo := repo1 }
    split at hrun
    · simp at hrun
    · rename_i responses w2 hloop
      rw [hloop] at hsvc
      simp only [Prod.mk.injEq, Except.ok.injEq] at hrun
      obtain ⟨_, hw'⟩ := hrun
      subst hw'
      simp only at hsvc
      refine ⟨?_, ?_, ?_⟩
      · simp only [hsvc, KeyManager.GetCurrentKey]
        exact NewEncryptionService_ok hlen
      · simp [hsvc, KeyManager.GetCurrentKey]
      · intro card p henc hver
        have hdec := decrypt_of_encryptedUnder hL henc
        simp only [decryptCardNumber, hver, if_true]
        exact hdec

/-- The sweep of C17 over the store with a corrupted record: the run returns responses,
one of them a failure, and afterwards the cipher is the one built from the new current
key. -/
theorem rotateKeys_rebinds_cipher_witness :
    NewEncryptionService corruptWorld.svc.keyMgr.GetCurrentKey.1 = .ok corruptWorld.svc.encSvc ∧
    NewEncryptionService afterSweepWorld.svc.keyMgr.GetCurrentKey.1 =
      .ok afterSweepWorld.svc.encSvc ∧
    afterSweepWorld.svc.keyMgr.GetCurrentKey.2 = 2 :=
  have h := rotateKeys_rebinds_cipher modelLib modelLib_sound memRepo corruptWorld
    afterSweepWorld 0
    [ { CardID := 1, Status := "success", Error := "" },
      { CardID := 3, Status := "failed", Error := "failed to decrypt with old key" },
      { CardID := 2, Status := "success", Error := "" } ]
    (by decide) (by rfl)
  ⟨by decide, h.1, h.2.1⟩

/-- C16, as stated, fails: `RotateKeys` has no check of a record's `KeyVersion`. Over a
store holding two records already tagged with the post-rotation version 2, the first is
decrypted with the old key, re-encrypted and handed to `repo.Update` with a new
ciphertext, and the second, which the old key does not decrypt, is reported as
failed. -/
theorem rotateKeys_no_skip_counterexample :
    (RotateKeys modelLib memRepo aheadWorld 0).2.svc.keyMgr.GetCurrentKey.2 = 2 ∧
    aheadCards.map (fun c => c.KeyVersion) = [2, 2] ∧
    (RotateKeys modelLib memRepo aheadWorld 0).1 =
      .ok [ { CardID := 1, Status := "success", Error := "" },
            { CardID := 2, Status := "failed", Error := "failed to decrypt with old key" } ] ∧
    (RotateKeys modelLib memRepo aheadWorld 0).2.stored.map (fun h => h.ID) = [1] ∧
    (RotateKeys modelLib memRepo aheadWorld 0).2.stored.map (fun h => h.CardNumber) ≠
      (aheadCards.take 1).map (fun c => c.CardNumber) ∧
    ¬ (∀ (L : CryptoLib) (R : CardRepository (List Card)) (w w' : World (List Card))
        (now : Nat) (cards : List Card) (repo1 : List Card) (resps : List BatchUpdateResponse),
        R.GetAllCards w.repo = (.ok cards, repo1) →
        RotateKeys L R w now = (.ok resps, w') →
        ∀ card ∈ cards, card.KeyVersion = w'.svc.keyMgr.GetCurrentKey.2 →
          ∀ resp ∈ resps, resp.CardID = card.ID → resp.Status ≠ "failed") := by
  refine ⟨by decide, by decide, by rfl, by decide, by decide, ?_⟩
  intro h
  have h1 := h modelLib memRepo aheadWorld (RotateKeys modelLib memRepo aheadWorld 0).2 0
    aheadCards aheadCards
    [ { CardID := 1, Status := "success", Error := "" },
      { CardID := 2, Status := "failed", Error := "failed to decrypt with old key" } ]
    (by rfl) (by rfl)
    (storedCard 2 (constKey 5) 2 (str "5555555555554444") (str "456") 24)
    (by simp [aheadCards]) (by decide)
    { CardID := 2, Status := "failed", Error := "failed to decrypt with old key" }
    (by simp) (by decide)
  exact h1 rfl

/-- C16, amended. The sweep never reads a record's `KeyVersion`, so a record whose
`KeyVersion` already equals the post-rotation version is not skipped. (1), (2) An
iteration, and `RotateKeys` on a list of records, do the same whatever the `KeyVersion`
of the records. (3) A record whose `CardNumber` or `CVV` the old cipher does not decrypt
is reported as failed, and its iteration reads no randomness and hands nothing to
`repo.Update`. (4) When both decrypt and an encryption under the new key fails, the
record is reported as failed and nothing is handed to `repo.Update`. (5) When both
decrypt and both encryptions succeed, the re-encrypted record, tagged with the
post-rotation version, is handed to `repo.Update`, and the response is "success" when
`Update` succeeds and "failed" when it fails. (6) In a run whose random source and
`repo.Update` never fail, a record that the old cipher decrypts is reported as
"success" and handed to `repo.Update` re-encrypted under the new current key and tagged
with the post-rotation version, and (7) a record that it does not decrypt is reported as
failed, whatever the `KeyVersion` of the record and whatever the other records are. -/
theorem rotateKeys_ignores_keyVersion {σ : Type} (L : CryptoLib) (R : CardRepository σ) :
    (∀ (old : Option EncryptionService) (new : EncryptionService) (ver : Int) (card : Card)
        (v : Int) (w : World σ),
        rotateCard L R old new ver { card with KeyVersion := v } w =
          rotateCard L R old new ver card w) ∧
    (∀ (R' : CardRepository σ) (w : World σ) (now : Nat) (cards : List Card) (repo1 : σ)
        (f : Card → Int),
        R'.Update = R.Update →
        R.GetAllCards w.repo = (.ok cards, repo1) →
        R'.GetAllCards w.repo =
          (.ok (cards.map (fun c => { c with KeyVersion := f c })), repo1) →
        RotateKeys L R' w now = RotateKeys L R w now) ∧
    (∀ (old new : EncryptionService) (ver : Int) (card : Card) (w : World σ),
        ((∃ err, old.Decrypt L card.CardNumber = .error err) ∨
          (∃ err, old.Decrypt L card.CVV = .error err)) →
        ∃ msg, rotateCard L R (some old) new ver card w =
          (some { CardID := card.ID, Status := "failed", Error := msg }, w)) ∧
    (∀ (old new : EncryptionService) (ver : Int) (card : Card) (w : World σ) (pn pc : Bytes),
        old.Decrypt L card.CardNumber = .ok pn → old.Decrypt L card.CVV = .ok pc →
        (∀ (err : Error) (r1 : Rand), new.Encrypt L pn w.rand = (.error err, r1) →
          rotateCard L R (some old) new ver card w =
            (some { CardID := card.ID, Status := "failed",
                    Error := "failed to encrypt with new key" }, { w with rand := r1 })) ∧
        (∀ (c1 : Bytes) (err : Error) (r1 r2 : Rand),
          new.Encrypt L pn w.rand = (.ok c1, r1) → new.Encrypt L pc r1 = (.error err, r2) →
          rotateCard L R (some old) new ver card w =
            (some { CardID := card.ID, Status := "failed",
                    Error := "failed to encrypt CVV with new key" },
              { w with rand := r2 }))) ∧
    (∀ (old new : EncryptionService) (ver : Int) (card : Card) (w : World σ)
        (pn pc c1 c2 : Bytes) (r1 r2 : Rand),
        old.Decrypt L card.CardNumber = .ok pn → old.Decrypt L card.CVV = .ok pc →
        new.Encrypt L pn w.rand = (.ok c1, r1) → new.Encrypt L pc r1 = (.ok c2, r2) →
        rotateCard L R (some old) new ver card w =
          match R.Update w.repo
              { card with CardNumber := c1, CVV := c2, KeyVersion := ver } with
          | (.error _, repo1) =>
            (some { CardID := card.ID, Status := "failed", Error := "failed to update card" },
              { w with
                rand := r2, repo := repo1
                stored := w.stored ++
                  [{ card with CardNumber := c1, CVV := c2, KeyVersion := ver }] })
          | (.ok _, repo1) =>
            (some { CardID := card.ID, Status := "success", Error := "" },
              { w with
                rand := r2, repo := repo1
                stored := w.stored ++
                  [{ card with CardNumber := c1, CVV := c2, KeyVersion := ver }] })) ∧
    (∀ (w : World σ) (now : Nat) (pre post : List Card) (card : Card) (repo1 : σ)
        (old : EncryptionService) (pn pc : Bytes),
        L.Sound → R.UpdateNeverFails → w.rand.NeverFails →
        R.GetAllCards w.repo = (.ok (pre ++ card :: post), repo1) →
        NewEncryptionService w.svc.keyMgr.GetCurrentKey.1 = .ok old →
        old.Decrypt L card.CardNumber = .ok pn → old.Decrypt L card.CVV = .ok pc →
        ∃ (w' : World σ) (new : EncryptionService)
          (respsPre respsPost : List BatchUpdateResponse) (before after : List Card)
          (h : Card),
          RotateKeys L R w now =
            (.ok (respsPre ++
              { CardID := card.ID, Status := "success", Error := "" } :: respsPost), w') ∧
          respsPre.length = pre.length ∧
          w'.svc.keyMgr.GetCurrentKey.2 = w.svc.keyMgr.GetCurrentKey.2 + 1 ∧
          NewEncryptionService w'.svc.keyMgr.GetCurrentKey.1 = .ok new ∧
          w'.stored = w.stored ++ before ++ h :: after ∧
          h.ID = card.ID ∧ h.KeyVersion = w'.svc.keyMgr.GetCurrentKey.2 ∧
          new.Decrypt L h.CardNumber = .ok pn ∧ new.Decrypt L h.CVV = .ok pc) ∧
    (∀ (w : World σ) (now : Nat) (pre post : List Card) (card : Card) (repo1 : σ)
        (old : EncryptionService),
        w.rand.NeverFails →
        R.GetAllCards w.repo = (.ok (pre ++ card :: post), repo1) →
        NewEncryptionService w.svc.keyMgr.GetCurrentKey.1 = .ok old →
        ((∃ err, old.Decrypt L card.CardNumber = .error err) ∨
          (∃ err, old.Decrypt L card.CVV = .error err)) →
        ∃ (w' : World σ) (respsPre respsPost : List BatchUpdateResponse) (msg : String),
          RotateKeys L R w now =
            (.ok (respsPre ++
              { CardID := card.ID, Status := "failed", Error := msg } :: respsPost), w') ∧
          respsPre.length = pre.length) := by
  refine ⟨fun old new ver card v w => rotateCard_keyVersion L R old new ver card v w, ?_,
    fun old new ver card w hbad => rotateCard_corrupt L R old new ver card w hbad,
    fun old new ver card w pn pc hn hc =>
      rotateCard_encrypt_fail L R old new ver card w pn pc hn hc,
    fun old new ver card w pn pc c1 c2 r1 r2 hn hc he1 he2 =>
      rotateCard_reencrypt L R old new ver card w pn pc c1 c2 r1 r2 hn hc he1 he2, ?_, ?_⟩
  · intro R' w now cards repo1 f hU hget hget'
    simp only [RotateKeys, hget, hget', rotateLoop_congr L R R' hU, rotateLoop_keyVersion]
  · intro w now pre post card repo1 old pn pc hL hR hr hget hold hn hc
    obtain ⟨newKey, w1, hlen, hr1, hst1, hkm1, hrun⟩ :=
      rotateKeys_run L R w now _ repo1 old hget hold hr
    obtain ⟨w2, respsPre, respsPost, before, after, h, hloop, hpre, hs, hid, hver, hdn, hdc,
      hsvc⟩ := rotateLoop_card_success hL R hR old { key := newKey }
        (w.svc.keyMgr.keyVersion + 1) pre post card pn pc hn hc w1 hr1
    rw [hloop] at hrun
    refine ⟨{ w2 with svc := { w2.svc with encSvc := { key := newKey } } },
      { key := newKey }, respsPre, respsPost, before, after, h, hrun, hpre, ?_, ?_,
      by rw [← hst1]; exact hs, hid, ?_, hdn, hdc⟩
    · simp [hsvc, hkm1, KeyManager.GetCurrentKey]
    · simp only [hsvc, hkm1, KeyManager.GetCurrentKey]
      exact NewEncryptionService_ok hlen
    · simp only [hsvc, hkm1, KeyManager.GetCurrentKey]
      exact hver
  · intro w now pre post card repo1 old hr hget hold hbad
    obtain ⟨newKey, w1, hlen, hr1, _, _, hrun⟩ :=
      rotateKeys_run L R w now _ repo1 old hget hold hr
    obtain ⟨w2, respsPre, respsPost, msg, hloop, hpre, _⟩ :=
      rotateLoop_card_failed L R old { key := newKey } (w.svc.keyMgr.keyVersion + 1)
        pre post card hbad w1 hr1
    rw [hloop] at hrun
    exact ⟨_, respsPre, respsPost, msg, hrun, hpre⟩

/-- The amended C16 on `aheadWorld`, whose two records are already tagged with the
post-rotation version 2: listing them with a `KeyVersion` of 1 gives the same run; the
first, which the old key decrypts, is reported as a success and handed to `repo.Update`
re-encrypted; the second, which it does not decrypt, is reported as failed. -/
theorem rotateKeys_ignores_keyVersion_witness :
    RotateKeys modelLib
        (memRepoListing (aheadCards.map (fun c => { c with KeyVersion := 1 }))) aheadWorld 0 =
      RotateKeys modelLib memRepo aheadWorld 0 ∧
    (∃ (respsPost : List BatchUpdateResponse) (before after : List Card) (h : Card),
      (RotateKeys modelLib memRepo aheadWorld 0).1 =
        .ok ({ CardID := 1, Status := "success", Error := "" } :: respsPost) ∧
      (RotateKeys modelLib memRepo aheadWorld 0).2.stored = before ++ h :: after ∧
      h.ID = 1 ∧ h.KeyVersion = 2 ∧
      (RotateKeys modelLib memRepo aheadWorld 0).2.svc.encSvc.Decrypt modelLib h.CardNumber =
        .ok (str "4111111111111111")) ∧
    (∃ (respsPre respsPost : List BatchUpdateResponse) (msg : String),
      (RotateKeys modelLib memRepo aheadWorld 0).1 =
        .ok (respsPre ++ { CardID := 2, Status := "failed", Error := msg } :: respsPost) ∧
      respsPre.length = 1) ∧
    (RotateKeys modelLib memRepo aheadWorld 0).1 =
      .ok [ { CardID := 1, Status := "success", Error := "" },
            { CardID := 2, Status := "failed", Error := "failed to decrypt with old key" } ] ∧
    (RotateKeys modelLib memRepo aheadWorld 0).2.stored.map
      (fun h => (h.ID, h.KeyVersion,
        (RotateKeys modelLib memRepo aheadWorld 0).2.svc.encSvc.Decrypt modelLib
          h.CardNumber)) = [(1, 2, .ok (str "4111111111111111"))] := by
  refine ⟨?_, ?_, ?_, by decide, by decide⟩
  · exact (rotateKeys_ignores_keyVersion modelLib memRepo).2.1
      (memRepoListing (aheadCards.map (fun c => { c with KeyVersion := 1 }))) aheadWorld 0
      aheadCards aheadCards (fun _ => 1) rfl (by rfl) (by rfl)
  · obtain ⟨w', new, respsPre, respsPost, before, after, h, hrun, hpre, hver, hnew, hst, hid,
      hkv, hdn, _⟩ :=
      (rotateKeys_ignores_keyVersion modelLib memRepo).2.2.2.2.2.1 aheadWorld 0 []
        (aheadCards.drop 1) (storedCard 1 (constKey 1) 2 (str "4111111111111111") (str "123") 0)
        aheadCards { key := constKey 1 } (str "4111111111111111") (str "123")
        modelLib_sound (fun _ _ => ⟨0, _, rfl⟩) (fun _ => rfl) (by rfl) (by decide)
        (by decide) (by decide)
    have hnil : respsPre = [] := List.length_eq_zero.mp hpre
    subst hnil
    have hw : w' = (RotateKeys modelLib memRepo aheadWorld 0).2 := by rw [hrun]
    subst hw
    have hv2 : (RotateKeys modelLib memRepo aheadWorld 0).2.svc.keyMgr.GetCurrentKey.2 = 2 :=
      hver
    have hsvc : NewEncryptionService
        (RotateKeys modelLib memRepo aheadWorld 0).2.svc.keyMgr.GetCurrentKey.1 =
        .ok (RotateKeys modelLib memRepo aheadWorld 0).2.svc.encSvc := by decide
    have hnew' : new = (RotateKeys modelLib memRepo aheadWorld 0).2.svc.encSvc :=
      Except.ok.inj (hnew.symm.trans hsvc)
    subst hnew'
    exact ⟨respsPost, before, after, h, by rw [hrun]; rfl, by simpa [aheadWorld] using hst,
      hid, hkv.trans hv2, hdn⟩
  · obtain ⟨w', respsPre, respsPost, msg, hrun, hpre⟩ :=
      (rotateKeys_ignores_keyVersion modelLib memRepo).2.2.2.2.2.2 aheadWorld 0
        (aheadCards.take 1) []
        (storedCard 2 (constKey 5) 2 (str "5555555555554444") (str "456") 24)
        aheadCards { key := constKey 1 } (fun _ => rfl) (by rfl) (by decide)
        (Or.inl ⟨.openFailed, by decide⟩)
    exact ⟨respsPre, respsPost, msg, by rw [hrun]; rfl, hpre⟩

/-- C13. For an input that is not valid base64, or whose decoding is shorter than the
12-byte nonce, `Decrypt` returns an error, and with it no plaintext (every error path of
the source returns the empty string), without attempting to open the sealed box: the
result is the decoding error or "ciphertext too short", and it is the same whatever
`Open` would do. -/
theorem decrypt_rejects_malformed (L : CryptoLib) (e : EncryptionService) (c : Bytes)
    (hbad : L.DecodeString c = none ∨
      ∃ data, L.DecodeString c = some data ∧ data.length < 12) :
    (e.Decrypt L c = .error .base64Corrupt ∨
      e.Decrypt L c = .error (.new "ciphertext too short")) ∧
    (L.DecodeString c = none → e.Decrypt L c = .error .base64Corrupt) ∧
    (∀ (anyOpen : Bytes → Bytes → Bytes → Option Bytes),
      e.Decrypt { L with Open := anyOpen } c = e.Decrypt L c) := by
  rcases hbad with hnone | ⟨data, hsome, hshort⟩
  · refine ⟨Or.inl ?_, fun _ => ?_, fun anyOpen => ?_⟩ <;>
      simp [EncryptionService.Decrypt, hnone]
  · have hlt : data.length < gcmNonceSize := hshort
    refine ⟨Or.inr ?_, fun h => ?_, fun anyOpen => ?_⟩
    · simp [EncryptionService.Decrypt, hsome, hlt]
    · rw [hsome] at h
      cases h
    · simp [EncryptionService.Decrypt, hsome, hlt]

/-- Instances of C13 in `strictLib`: a string that does not decode, and a string whose
decoding has seven bytes. -/
theorem decrypt_rejects_malformed_witness :
    strictLib.DecodeString (str "garbage") = none ∧
    EncryptionService.Decrypt strictLib { key := constKey 7 } (str "garbage") =
      .error .base64Corrupt ∧
    strictLib.DecodeString (str "Bgarbage") = some (str "garbage") ∧
    EncryptionService.Decrypt strictLib { key := constKey 7 } (str "Bgarbage") =
      .error (.new "ciphertext too short") :=
  ⟨by decide,
    (decrypt_rejects_malformed strictLib { key := constKey 7 } (str "garbage")
      (Or.inl (by decide))).2.1 (by decide),
    by decide,
    ((decrypt_rejects_malformed strictLib { key := constKey 7 } (str "Bgarbage")
      (Or.inr ⟨str "garbage", by decide, by decide⟩)).1).resolve_left (by decide)⟩

/-- C14. Tamper detection, for a library whose `Open` inverts `Seal` and rejects a
sealed box with a flipped bit. A value `c` that `Encrypt` produced decodes to a nonce
followed by a sealed box, and `Decrypt` of any value that decodes to the same nonce
followed by that box with one bit flipped returns the error of `Open` and no plaintext.
For every library, `Decrypt` returns the error of `Open` whenever `Open` rejects the box,
and returns a plaintext only if `Open` returned it. -/
theorem decrypt_detects_tampering (L : CryptoLib) (hL : L.Sound) (hA : L.TamperEvident)
    (e : EncryptionService) (p c : Bytes) (r r' : Rand)
    (henc : e.Encrypt L p r = (.ok c, r')) :
    (∃ nonce box, nonce.length = gcmNonceSize ∧ L.DecodeString c = some (nonce ++ box) ∧
      ∀ (c' : Bytes) (i : Nat) (j : Fin 8), i < box.length →
        L.DecodeString c' = some (nonce ++ flipBitAt box i j) →
        e.Decrypt L c' = .error .openFailed) ∧
    (∀ (c' data : Bytes), L.DecodeString c' = some data → gcmNonceSize ≤ data.length →
      L.Open e.key (data.take gcmNonceSize) (data.drop gcmNonceSize) = none →
      e.Decrypt L c' = .error .openFailed) ∧
    (∀ (c' q : Bytes), e.Decrypt L c' = .ok q →
      ∃ data, L.DecodeString c' = some data ∧
        L.Open e.key (data.take gcmNonceSize) (data.drop gcmNonceSize) = some q) := by
  have hrej : ∀ (c' data : Bytes), L.DecodeString c' = some data →
      gcmNonceSize ≤ data.length →
      L.Open e.key (data.take gcmNonceSize) (data.drop gcmNonceSize) = none →
      e.Decrypt L c' = .error .openFailed := by
    intro c' data hdec hlen hopen
    simp [EncryptionService.Decrypt, hdec, Nat.not_lt.mpr hlen, hopen]
  refine ⟨?_, hrej, ?_⟩
  · unfold EncryptionService.Encrypt at henc
    rcases hq : randRead gcmNonceSize r with ⟨nonce, err, r1⟩
    rw [hq] at henc
    cases err with
    | true => simp at henc
    | false =>
      simp only [Prod.mk.injEq, Except.ok.injEq] at henc
      have hlen : nonce.length = gcmNonceSize := randRead_length _ _ _ _ hq
      refine ⟨nonce, L.Seal e.key nonce p, hlen, by rw [← henc.1, hL.decode_encode], ?_⟩
      intro c' i j hi hdec
      apply hrej c' _ hdec (by simp [hlen])
      rw [← hlen, List.take_left' rfl, List.drop_left' rfl]
      exact hA e.key nonce p i j hi
  · intro c' q hok
    unfold EncryptionService.Decrypt at hok
    split at hok
    · cases hok
    · rename_i data hdec
      dsimp only at hok
      split at hok
      · cases hok
      · split at hok
        · cases hok
        · rename_i q' hopen
          exact ⟨data, hdec, by rw [hopen]; exact congrArg some (Except.ok.inj hok)⟩

set_option maxRecDepth 8000 in
/-- The tampering of C14 in `strictLib`: the ciphertext decrypts, and with the lowest
bit of the first byte after the nonce flipped it is rejected with the error of `Open`. -/
theorem decrypt_detects_tampering_witness :
    EncryptionService.Decrypt strictLib { key := constKey 7 } strictCiphertext =
      .ok (str "4111111111111111") ∧
    tamperedCiphertext ≠ strictCiphertext ∧
    EncryptionService.Decrypt strictLib { key := constKey 7 } tamperedCiphertext =
      .error .openFailed := by
  obtain ⟨nonce, box, _, hdec, h⟩ := (decrypt_detects_tampering strictLib strictLib_sound
    strictLib_tamperEvident { key := constKey 7 } (str "4111111111111111") strictCiphertext
    (countingRand 0)
    (EncryptionService.Encrypt strictLib { key := constKey 7 } (str "4111111111111111")
      (countingRand 0)).2 (by rfl)).1
  have hd : strictLib.DecodeString strictCiphertext =
      some (strictCiphertext.drop 1) := by decide
  have hnb : nonce ++ box = (strictCiphertext.drop 1).take 12 ++ strictBox :=
    (Option.some.inj (hdec.symm.trans hd)).trans (by decide)
  have hn : nonce.length = ((strictCiphertext.drop 1).take 12).length := by
    rename_i hlen
    rw [hlen]
    decide
  obtain ⟨hnonce, hbox⟩ := List.append_inj hnb hn
  subst hnonce hbox
  exact ⟨by decide, by decide, h tamperedCiphertext 0 0 (by decide) (by decide)⟩

/-- C12. In whatever order the four patterns are visited, `detectCardType` returns the
first brand whose pattern matches in the one fixed order Visa, Mastercard, Amex,
Discover, and "Unknown" if and only if no pattern matches; the result depends on the
input alone, not on the visiting order. Every string of 13 or 16 digits that starts
with `'4'`, such as "4111111111111111", yields "Visa". -/
theorem detectCardType_order_independent (order : List (String × List Regex))
    (horder : order.Perm patterns) (s : Bytes) :
    patterns.map Prod.fst = ["Visa", "Mastercard", "Amex", "Discover"] ∧
    detectCardType order s = firstMatch patterns s ∧
    (∀ (order' : List (String × List Regex)), order'.Perm patterns →
      detectCardType order' s = detectCardType order s) ∧
    (detectCardType order s = "Unknown" ↔ ∀ p ∈ patterns, MatchString p.2 s = false) ∧
    (s.head? = some 52 → (s.length = 13 ∨ s.length = 16) → (∀ c ∈ s, isAsciiDigit c) →
      detectCardType order s = "Visa") ∧
    detectCardType order (str "4111111111111111") = "Visa" := by
  have hsrc := detectCardType_perm order horder s
  refine ⟨by decide, ?_, ?_, ?_, ?_, detectCardType_test_number order horder⟩
  · rw [hsrc, detectCardType_eq_firstMatch]
  · intro order' horder'
    rw [hsrc, detectCardType_perm order' horder' s]
  · constructor
    · intro hu p hp
      cases hm : MatchString p.2 s with
      | false => rfl
      | true =>
        have hname : ∀ q ∈ patterns, q.1 ≠ "Unknown" := by decide
        rw [detectCardType_of_match order horder s p hp hm] at hu
        exact absurd hu (hname p hp)
    · intro hno
      exact detectCardType_unknown s order (fun p hp => hno p (horder.mem_iff.mp hp))
  · intro hhead hlen hd
    exact detectCardType_of_match order horder s
      ("Visa", [.seq (.lit 52) (.seq (.rep .digit 12) (.opt (.rep .digit 3)))])
      (by simp [patterns]) (visa_matches s hhead hlen hd)

set_option maxRecDepth 8000 in
/-- Instances of C12 with the patterns visited in reverse order: a 13-digit number
starting with `'4'` is a Visa number, and a number no pattern matches is "Unknown". -/
theorem detectCardType_order_independent_witness :
    patterns.reverse.Perm patterns ∧
    detectCardType patterns.reverse (str "4222222222222") = "Visa" ∧
    detectCardType patterns.reverse (str "9111111111111111") = "Unknown" :=
  ⟨List.reverse_perm patterns,
    (detectCardType_order_independent patterns.reverse (List.reverse_perm patterns)
      (str "4222222222222")).2.2.2.2.1 (by decide) (by decide) (by decide),
    (detectCardType_order_independent patterns.reverse (List.reverse_perm patterns)
      (str "9111111111111111")).2.2.2.1.mpr (by decide)⟩

end CardVault
